import Mathlib

/-
Shallow embedding of the `htpp` HTTP request/response/URL parser
(src/lib.rs, src/request.rs, src/response.rs, src/uri.rs).

Bytes are modelled as `Nat` (a Rust `u8` is always < 256; the character
tables are total on `Nat` and are `false` above 255, matching the fact that
no real input byte lies there).  Rust `&str` and `&[u8]` slices are both
modelled as `List Nat` (the bytes of the slice; `from_utf8_unchecked` is the
identity on bytes).  A Rust function that can return `Ok`, return `Err`, or
panic (out-of-bounds slice indexing, `unreachable!`, or a failed `unwrap`)
is modelled with the `POut` outcome type below; `crash` is the panic
outcome, and `pbind` is the sequencing of the source's `?` operator
together with panic propagation.  The iterator loops of the source, which
scan a maximal run of bytes satisfying a byte-class test and then dispatch
on the first byte after the run, are modelled with the explicit `scanWhile`
function.
-/

set_option maxRecDepth 8000

namespace Htpp

/-- src/lib.rs: `Error` — the two parse-error variants. -/
inductive Error where
  | Malformed : Error
  | TooManyHeaders : Error
deriving DecidableEq

/-- Outcome of a Rust call: `Ok`, `Err`, or a panic (`crash`). -/
inductive POut (α : Type) where
  | ok : α → POut α
  | err : Error → POut α
  | crash : POut α
deriving DecidableEq

/-- Sequencing of fallible calls: the `?` operator, with panic
propagation. -/
def pbind {α β : Type} : POut α → (α → POut β) → POut β
  | .ok a, f => f a
  | .err e, _ => .err e
  | .crash, _ => .crash

/-- src/request.rs: `Method` — only `Get` and `Post` exist in the source. -/
inductive Method where
  | Get : Method
  | Post : Method
deriving DecidableEq

/-- src/lib.rs: `HttpVer`. -/
inductive HttpVer where
  | One : HttpVer
  | Two : HttpVer
deriving DecidableEq

/-- src/lib.rs: `Header` — a name (a `&str`, modelled as its bytes) and a
raw byte value. -/
structure Header where
  name : List Nat
  val : List Nat
deriving DecidableEq

/-- src/request.rs: `Request`. -/
structure Request where
  method : Method
  path : List Nat
  headers : List Header
  body : List Nat
deriving DecidableEq

/-- src/response.rs: `Response`. -/
structure Response where
  status : Nat
  reason : List Nat
  headers : List Header
  body : List Nat
deriving DecidableEq

/-- src/lib.rs byte constant `SPACE`. -/
def SPACE : Nat := 32
/-- src/lib.rs byte constant `CR`. -/
def CR : Nat := 13
/-- src/lib.rs byte constant `LF`. -/
def LF : Nat := 10
/-- src/lib.rs byte constant `COLON`. -/
def COLON : Nat := 58

/-- src/lib.rs: the 256-entry `URL_SAFE` table, transcribed entry for entry
(1 = member of the class, 0 = not). -/
def URL_SAFE : List Nat :=
  [0, 0, 0, 0, 0, 0, 0, 0, 0, 0, 0, 0, 0, 0, 0, 0,
   0, 0, 0, 0, 0, 0, 0, 0, 0, 0, 0, 0, 0, 0, 0, 0,
   0, 1, 0, 1, 1, 1, 1, 1, 1, 1, 1, 1, 1, 1, 1, 1,
   1, 1, 1, 1, 1, 1, 1, 1, 1, 1, 1, 1, 0, 1, 0, 1,
   1, 1, 1, 1, 1, 1, 1, 1, 1, 1, 1, 1, 1, 1, 1, 1,
   1, 1, 1, 1, 1, 1, 1, 1, 1, 1, 1, 1, 1, 1, 1, 1,
   1, 1, 1, 1, 1, 1, 1, 1, 1, 1, 1, 1, 1, 1, 1, 1,
   1, 1, 1, 1, 1, 1, 1, 1, 1, 1, 1, 1, 1, 1, 1, 0,
   0, 0, 0, 0, 0, 0, 0, 0, 0, 0, 0, 0, 0, 0, 0, 0,
   0, 0, 0, 0, 0, 0, 0, 0, 0, 0, 0, 0, 0, 0, 0, 0,
   0, 0, 0, 0, 0, 0, 0, 0, 0, 0, 0, 0, 0, 0, 0, 0,
   0, 0, 0, 0, 0, 0, 0, 0, 0, 0, 0, 0, 0, 0, 0, 0,
   0, 0, 0, 0, 0, 0, 0, 0, 0, 0, 0, 0, 0, 0, 0, 0,
   0, 0, 0, 0, 0, 0, 0, 0, 0, 0, 0, 0, 0, 0, 0, 0,
   0, 0, 0, 0, 0, 0, 0, 0, 0, 0, 0, 0, 0, 0, 0, 0,
   0, 0, 0, 0, 0, 0, 0, 0, 0, 0, 0, 0, 0, 0, 0, 0]

/-- src/lib.rs: the 256-entry `HEADER_NAME_SAFE` table, transcribed entry
for entry. -/
def HEADER_NAME_SAFE : List Nat :=
  [0, 0, 0, 0, 0, 0, 0, 0, 0, 0, 0, 0, 0, 0, 0, 0,
   0, 0, 0, 0, 0, 0, 0, 0, 0, 0, 0, 0, 0, 0, 0, 0,
   0, 0, 0, 0, 0, 0, 0, 0, 0, 0, 0, 0, 0, 1, 0, 0,
   1, 1, 1, 1, 1, 1, 1, 1, 1, 1, 0, 0, 0, 0, 0, 0,
   0, 1, 1, 1, 1, 1, 1, 1, 1, 1, 1, 1, 1, 1, 1, 1,
   1, 1, 1, 1, 1, 1, 1, 1, 1, 1, 1, 0, 0, 0, 0, 1,
   0, 1, 1, 1, 1, 1, 1, 1, 1, 1, 1, 1, 1, 1, 1, 1,
   1, 1, 1, 1, 1, 1, 1, 1, 1, 1, 1, 0, 0, 0, 0, 0,
   0, 0, 0, 0, 0, 0, 0, 0, 0, 0, 0, 0, 0, 0, 0, 0,
   0, 0, 0, 0, 0, 0, 0, 0, 0, 0, 0, 0, 0, 0, 0, 0,
   0, 0, 0, 0, 0, 0, 0, 0, 0, 0, 0, 0, 0, 0, 0, 0,
   0, 0, 0, 0, 0, 0, 0, 0, 0, 0, 0, 0, 0, 0, 0, 0,
   0, 0, 0, 0, 0, 0, 0, 0, 0, 0, 0, 0, 0, 0, 0, 0,
   0, 0, 0, 0, 0, 0, 0, 0, 0, 0, 0, 0, 0, 0, 0, 0,
   0, 0, 0, 0, 0, 0, 0, 0, 0, 0, 0, 0, 0, 0, 0, 0,
   0, 0, 0, 0, 0, 0, 0, 0, 0, 0, 0, 0, 0, 0, 0, 0]

/-- Membership in `URL_SAFE` (`URL_SAFE[c as usize]`). -/
def urlSafeB (c : Nat) : Bool := URL_SAFE.getD c 0 == 1

/-- Membership in `HEADER_NAME_SAFE` (`HEADER_NAME_SAFE[c as usize]`). -/
def hdrNameSafeB (c : Nat) : Bool := HEADER_NAME_SAFE.getD c 0 == 1

/-- The inline byte-class test of `RequestParser::parse_header_name` and
`ResponseParser::parse_header_name` (both have the same body):
`(97..=122).contains(c) || (65..=90).contains(c) || c == 45`. -/
def structNameSafeB (c : Nat) : Bool :=
  (decide (97 ≤ c) && decide (c ≤ 122)) || (decide (65 ≤ c) && decide (c ≤ 90)) || c == 45

/-- The byte-class test of `ResponseParser::parse_reason`:
`(65..=90).contains(c) || (97..=122).contains(c) || c == SPACE`. -/
def reasonSafeB (c : Nat) : Bool :=
  (decide (65 ≤ c) && decide (c ≤ 90)) || (decide (97 ≤ c) && decide (c ≤ 122)) || c == SPACE

/-- The ASCII-digit test of `ResponseParser::parse_status`:
`(48..=57).contains(c)`. -/
def digitB (c : Nat) : Bool := decide (48 ≤ c) && decide (c ≤ 57)

/-- `scanWhile p l` = (the longest prefix of `l` whose bytes all satisfy
`p`, the remaining suffix).  This is the shape of every scanning for-loop
in the source: advance while the byte class holds, then dispatch on the
first byte that does not. -/
def scanWhile (p : Nat → Bool) : List Nat → List Nat × List Nat
  | [] => ([], [])
  | c :: r =>
    if p c then
      let s := scanWhile p r
      (c :: s.1, s.2)
    else ([], c :: r)

/-- src/request.rs `RequestParser::parse_method`: exact literal match of
`"GET "` (then `"POST "`); both branches of the source return
`Method::Get`.  Slicing `bytes[0..4]` / `bytes[0..5]` panics when the
buffer is shorter. -/
def parse_method (bs : List Nat) : POut (Method × List Nat) :=
  if bs.length < 4 then .crash
  else if bs.take 4 = [71, 69, 84, 32] then .ok (.Get, bs.drop 4)
  else if bs.length < 5 then .crash
  else if bs.take 5 = [80, 79, 83, 84, 32] then .ok (.Get, bs.drop 5)
  else .err .Malformed

/-- src/request.rs `RequestParser::parse_path`: scan `URL_SAFE` bytes, stop
at `SPACE`, reject an empty path; any other byte (or running out of input)
is `Malformed`.  (The source writes the table test as
`URL_SAFE.binary_search(character).is_ok()`, which does not type-check
against `[bool; 256]` as written; table membership is the only coherent
reading and matches the function's own comment.) -/
def parse_path (bs : List Nat) : POut (List Nat × List Nat) :=
  match scanWhile urlSafeB bs with
  | (_, []) => .err .Malformed
  | (pre, c :: r) =>
    if c = SPACE then
      if pre = [] then .err .Malformed else .ok (pre, r)
    else .err .Malformed

/-- src/request.rs `RequestParser::parse_http_version`: exact 10-byte
literal `"HTTP/1.1\r\n"` or `"HTTP/2.0\r\n"`; slicing `bytes[0..10]`
panics if the buffer is shorter. -/
def parse_http_version (bs : List Nat) : POut (HttpVer × List Nat) :=
  if bs.length < 10 then .crash
  else if bs.take 10 = [72, 84, 84, 80, 47, 49, 46, 49, 13, 10] then .ok (.One, bs.drop 10)
  else if bs.take 10 = [72, 84, 84, 80, 47, 50, 46, 48, 13, 10] then .ok (.Two, bs.drop 10)
  else .err .Malformed

/-- src/request.rs `RequestParser::parse_header_name` (the body of
`ResponseParser::parse_header_name` is identical): scan letters and `-`;
at `:` close the name and skip exactly one following space or horizontal
tab; any other byte is `Malformed`; if the loop exhausts the buffer the
source returns `Ok("")` leaving the buffer untouched.  Reading `bytes[0]`
just after the colon panics when the colon is the last byte. -/
def parse_header_name (bs : List Nat) : POut (List Nat × List Nat) :=
  match scanWhile structNameSafeB bs with
  | (_, []) => .ok ([], bs)
  | (pre, c :: r) =>
    if c = COLON then
      match r with
      | [] => .crash
      | d :: r2 => if d = SPACE ∨ d = 9 then .ok (pre, r2) else .ok (pre, d :: r2)
    else .err .Malformed

/-- src/request.rs `RequestParser::parse_header_value` (identical in
response.rs): the value is everything up to the first `CR`, which must be
followed by `LF`; no `CR` at all is `Malformed`; a `CR` as last byte makes
the `bytes[0]` check panic. -/
def parse_header_value (bs : List Nat) : POut (List Nat × List Nat) :=
  match scanWhile (fun c => c != CR) bs with
  | (_, []) => .err .Malformed
  | (pre, _ :: r) =>
    match r with
    | [] => .crash
    | d :: r2 => if d = LF then .ok (pre, r2) else .err .Malformed

/-- The `while !self.bytes.is_empty()` header loop of
`RequestParser::parse_headers` / `ResponseParser::parse_headers`,
fuelled.  Every loop iteration consumes at least one byte on the success
path, so the wrapper's fuel `bs.length + 1` can never run out; the fuel-0
arm is unreachable. -/
def parse_headers_go (fuel : Nat) (acc : List Header) (bs : List Nat) :
    POut (List Header × List Nat) :=
  match fuel with
  | 0 => .crash
  | f + 1 =>
    match bs with
    | [] => .ok (acc, [])
    | _ :: _ =>
      pbind (parse_header_name bs) (fun nb =>
      pbind (parse_header_value nb.2) (fun vb =>
      parse_headers_go f (acc ++ [⟨nb.1, vb.1⟩]) vb.2))

/-- src/request.rs `RequestParser::parse_headers`. -/
def parse_headers (bs : List Nat) : POut (List Header × List Nat) :=
  parse_headers_go (bs.length + 1) [] bs

/-- src/request.rs `find_substr` (identical in response.rs):
`bytes.windows(len).position(|win| win == substr)` — index of the first
window equal to `pat`. -/
def find_substr (pat : List Nat) : List Nat → Nat → Option Nat
  | [], i => if pat.length = 0 then some i else none
  | c :: r, i =>
    if pat.length ≤ (c :: r).length then
      if (c :: r).take pat.length = pat then some i
      else find_substr pat r (i + 1)
    else none

/-- src/request.rs `RequestParser::parse`: locate the first
`"\r\n\r\n"`, split there, guard the head length, then method, path,
version and headers in sequence; the body is everything after the blank
line (`&body[2..]` — in range because the matched window has four
bytes). -/
def requestParse (bs : List Nat) : POut Request :=
  match find_substr [13, 10, 13, 10] bs 0 with
  | none => .err .Malformed
  | some idx =>
    if (bs.take (idx + 2)).length < 14 then .err .Malformed
    else
      pbind (parse_method (bs.take (idx + 2))) (fun mb =>
      pbind (parse_path mb.2) (fun pb =>
      if pb.2.length < 10 then .err .Malformed
      else
        pbind (parse_http_version pb.2) (fun vb =>
        pbind (parse_headers vb.2) (fun hb =>
        .ok ⟨mb.1, pb.1, hb.1, (bs.drop (idx + 2)).drop 2⟩))))

/-- The bytes of `Display for Method` (`"GET"` / `"POST"`). -/
def methodBytes : Method → List Nat
  | .Get => [71, 69, 84]
  | .Post => [80, 79, 83, 84]

/-- One serialized header line of `Request::as_bytes`:
`name ++ ": " ++ val ++ "\r\n"`. -/
def headerLineBytes (h : Header) : List Nat :=
  h.name ++ [58, 32] ++ h.val ++ [13, 10]

/-- The concatenation of the serialized header lines. -/
def hdrLines : List Header → List Nat
  | [] => []
  | h :: t => headerLineBytes h ++ hdrLines t

/-- src/request.rs `Request::as_bytes`:
`"{method} {path} HTTP/1.1\r\n"`, each header as `Name: Value\r\n`, a
blank line, then the body. -/
def as_bytes (r : Request) : List Nat :=
  methodBytes r.method ++ [32] ++ r.path ++ [32]
    ++ [72, 84, 84, 80, 47, 49, 46, 49, 13, 10]
    ++ hdrLines r.headers ++ [13, 10] ++ r.body

/-- src/response.rs `ResponseParser::parse_http_version`: 9-byte literal
`"HTTP/1.1 "` or `"HTTP/2.0 "` (trailing space). -/
def resp_parse_http_version (bs : List Nat) : POut (HttpVer × List Nat) :=
  if bs.length < 9 then .crash
  else if bs.take 9 = [72, 84, 84, 80, 47, 49, 46, 49, 32] then .ok (.One, bs.drop 9)
  else if bs.take 9 = [72, 84, 84, 80, 47, 50, 46, 48, 32] then .ok (.Two, bs.drop 9)
  else .err .Malformed

/-- Value of an ASCII digit string (all bytes 48..57). -/
def digitsToNat (ds : List Nat) : Nat := ds.foldl (fun n d => n * 10 + (d - 48)) 0

/-- `str::parse::<u16>(status).unwrap()` on a run of ASCII digits: fails —
i.e. panics through the `unwrap` — on the empty string and on values that
do not fit in 16 bits. -/
def u16_unwrap (ds : List Nat) : POut Nat :=
  if ds = [] then .crash
  else if 65535 < digitsToNat ds then .crash
  else .ok (digitsToNat ds)

/-- src/response.rs `ResponseParser::parse_reason`: scan letters and
space; at `CR` require `LF` and close the reason; any other byte is
`Malformed`; if the loop exhausts the buffer the source returns `Ok("")`
leaving the buffer untouched. -/
def parse_reason (bs : List Nat) : POut (List Nat × List Nat) :=
  match scanWhile reasonSafeB bs with
  | (_, []) => .ok ([], bs)
  | (pre, c :: r) =>
    if c = CR then
      match r with
      | [] => .crash
      | d :: r2 => if d = LF then .ok (pre, r2) else .err .Malformed
    else .err .Malformed

/-- The scanning loop of src/response.rs `ResponseParser::parse_status`,
with `acc` the digit run scanned so far.  Branches mirror the source:
digits continue; a space closes the run (length check, then either an
alphabetic byte starting a reason phrase, or `CR LF` with no reason);
a direct `CR LF` closes the run with no length check; anything else is
`Malformed`.  The `u16` conversion is `unwrap`ped, after the reason
phrase has been parsed where one is present. -/
def parse_status_go (acc : List Nat) : List Nat → POut ((Nat × List Nat) × List Nat)
  | [] => .err .Malformed
  | c :: r =>
    if digitB c then parse_status_go (acc ++ [c]) r
    else if c = SPACE then
      if 3 < acc.length then .err .Malformed
      else
        match r with
        | [] => .crash
        | d :: r2 =>
          if (65 ≤ d ∧ d ≤ 90) ∨ (97 ≤ d ∧ d ≤ 122) then
            pbind (parse_reason (d :: r2)) (fun rb =>
            pbind (u16_unwrap acc) (fun st => .ok ((st, rb.1), rb.2)))
          else if d = CR then
            match r2 with
            | [] => .crash
            | d2 :: r3 =>
              if d2 = LF then pbind (u16_unwrap acc) (fun st => .ok ((st, []), r3))
              else .err .Malformed
          else .err .Malformed
    else if c = CR then
      match r with
      | [] => .crash
      | d :: r2 =>
        if d = LF then pbind (u16_unwrap acc) (fun st => .ok ((st, []), r2))
        else .err .Malformed
    else .err .Malformed

/-- src/response.rs `ResponseParser::parse_status`. -/
def parse_status (bs : List Nat) : POut ((Nat × List Nat) × List Nat) :=
  parse_status_go [] bs

/-- src/response.rs `ResponseParser::parse_headers`: rejects a leading
space, then runs the same header loop as the request parser (the two loop
bodies are textually identical in the source). -/
def resp_parse_headers (bs : List Nat) : POut (List Header × List Nat) :=
  if bs.head? = some SPACE then .err .Malformed
  else parse_headers bs

/-- src/response.rs `ResponseParser::parse`. -/
def responseParse (bs : List Nat) : POut Response :=
  match find_substr [13, 10, 13, 10] bs 0 with
  | none => .err .Malformed
  | some idx =>
    if (bs.take (idx + 2)).length < 12 then .err .Malformed
    else
      pbind (resp_parse_http_version (bs.take (idx + 2))) (fun vb =>
      pbind (parse_status vb.2) (fun sb =>
      pbind (resp_parse_headers sb.2) (fun hb =>
      .ok ⟨sb.1.1, sb.1.2, hb.1, (bs.drop (idx + 2)).drop 2⟩)))

/-- src/lib.rs `parse_header_name` (the standalone, table-driven header
scanner): scan `HEADER_NAME_SAFE` bytes; at `:` close the name, returning
`counter+2` when the byte after the colon is space or horizontal tab and
`counter+1` otherwise; any other byte is `Malformed`.  Exhausting the
slice hits `unreachable!()`, and reading `slice[counter+1]` panics when
the colon is the last byte. -/
def lib_parse_header_name (slice : List Nat) : POut (List Nat × Nat) :=
  match scanWhile hdrNameSafeB slice with
  | (_, []) => .crash
  | (pre, c :: r) =>
    if c = COLON then
      match r with
      | [] => .crash
      | d :: _ => if d = SPACE ∨ d = 9 then .ok (pre, pre.length + 2) else .ok (pre, pre.length + 1)
    else .err .Malformed

/-- src/lib.rs `parse_header_value`: the value runs to the first `CR`,
whose following byte must be `LF`; reading `slice[counter+1]` panics when
the `CR` is the last byte; no `CR` at all is `Malformed`. -/
def lib_parse_header_value (slice : List Nat) : POut (List Nat × Nat) :=
  match scanWhile (fun c => c != CR) slice with
  | (_, []) => .err .Malformed
  | (pre, _ :: r) =>
    match r with
    | [] => .crash
    | d :: _ => if d = LF then .ok (pre, pre.length + 2) else .err .Malformed

/-- The `while &slice[offset..offset+2] != b"\r\n"` loop of src/lib.rs
`parse_headers`, fuelled (each iteration consumes at least one byte, so
the wrapper's fuel never runs out).  The two-byte peek panics when fewer
than two bytes remain; the capacity check precedes the buffer write, which
is modelled with `List.set`. -/
def lib_parse_headers_go (fuel : Nat) (slice : List Nat) (offset iteration : Nat)
    (buf : List Header) : POut (List Header × Nat) :=
  match fuel with
  | 0 => .crash
  | f + 1 =>
    if slice.length < offset + 2 then .crash
    else if (slice.drop offset).take 2 = [13, 10] then .ok (buf, offset + 2)
    else if buf.length ≤ iteration then .err .TooManyHeaders
    else
      pbind (lib_parse_header_name (slice.drop offset)) (fun nb =>
      pbind (lib_parse_header_value (slice.drop (offset + nb.2))) (fun vb =>
      lib_parse_headers_go f slice (offset + nb.2 + vb.2) (iteration + 1)
        (buf.set iteration ⟨nb.1, vb.1⟩)))

/-- src/lib.rs `parse_headers`: parse a header block into the
caller-supplied buffer, returning the final buffer contents and the number
of bytes consumed through the blank line. -/
def lib_parse_headers (slice : List Nat) (buf : List Header) : POut (List Header × Nat) :=
  lib_parse_headers_go (slice.length + 1) slice 0 0 buf

/-- src/uri.rs: `UrlError`. -/
inductive UrlError where
  | Path : UrlError
  | Query : UrlError
  | TooManyQueryParams : UrlError
deriving DecidableEq

/-- Outcome of a src/uri.rs function (`Result<_, UrlError>`; no code path
in uri.rs can panic). -/
inductive UOut (α : Type) where
  | ok : α → UOut α
  | err : UrlError → UOut α
deriving DecidableEq

/-- Sequencing of fallible uri.rs calls (the `?` operator). -/
def ubind {α β : Type} : UOut α → (α → UOut β) → UOut β
  | .ok a, f => f a
  | .err e, _ => .err e

/-- src/uri.rs: `QueryParam` (both fields are `&str`, modelled as bytes). -/
structure QueryParam where
  name : List Nat
  val : List Nat
deriving DecidableEq

/-- src/uri.rs: `Url`. -/
structure Url where
  path : List Nat
  query_params : Option (List QueryParam)
deriving DecidableEq

/-- src/uri.rs `parse_path`: the slice must start with `/`; the path runs
to the first `?` (exclusive, consuming the `?`) or to the end of the
slice.  No byte-class validation is applied. -/
def uri_parse_path (slice : List Nat) : UOut (List Nat × Nat) :=
  match slice with
  | [] => .err .Path
  | c :: _ =>
    if c ≠ 47 then .err .Path
    else
      match scanWhile (fun b => b != 63) slice with
      | (_, []) => .ok (slice, slice.length)
      | (pre, _ :: _) => .ok (pre, pre.length + 1)

/-- src/uri.rs `parse_query_param_name`.  The source loop continues on
`HEADER_NAME_SAFE` bytes, returns at `=`, and — having no final `else` —
also continues on every other byte; since `=` itself is not in the table,
the loop stops exactly at the first `=`, so the scan predicate is the
disjunction of the two continue-branches.  An empty name, or no `=` at
all, is `UrlError::Query`. -/
def parse_query_param_name (slice : List Nat) : UOut (List Nat × Nat) :=
  match scanWhile (fun c => hdrNameSafeB c || c != 61) slice with
  | (_, []) => .err .Query
  | (pre, _ :: _) =>
    if pre = [] then .err .Query else .ok (pre, pre.length + 1)

/-- src/uri.rs `parse_query_param_value`: the value runs to the first `&`
(which must not make it empty) or to the end of the slice (where empty is
allowed); no byte-class validation. -/
def parse_query_param_value (slice : List Nat) : UOut (List Nat × Nat) :=
  match scanWhile (fun c => c != 38) slice with
  | (_, []) => .ok (slice, slice.length)
  | (pre, _ :: _) =>
    if pre = [] then .err .Query else .ok (pre, pre.length + 1)

/-- The `while offset < slice.len()` loop of src/uri.rs
`parse_query_params`, fuelled (a successful name consumes at least two
bytes, so the wrapper's fuel never runs out). -/
def parse_query_params_go (fuel : Nat) (slice : List Nat) (offset iteration : Nat)
    (buf : List QueryParam) : UOut (List QueryParam) :=
  match fuel with
  | 0 => .err .Query
  | f + 1 =>
    if slice.length ≤ offset then .ok buf
    else if buf.length ≤ iteration then .err .TooManyQueryParams
    else
      ubind (parse_query_param_name (slice.drop offset)) (fun nb =>
      ubind (parse_query_param_value (slice.drop (offset + nb.2))) (fun vb =>
      parse_query_params_go f slice (offset + nb.2 + vb.2) (iteration + 1)
        (buf.set iteration ⟨nb.1, vb.1⟩)))

/-- src/uri.rs `parse_query_params`. -/
def parse_query_params (slice : List Nat) (buf : List QueryParam) : UOut (List QueryParam) :=
  parse_query_params_go (slice.length + 1) slice 0 0 buf

/-- src/uri.rs `Url::parse`: parse the path; if it consumed the whole
slice, or the caller's query buffer has zero capacity, report no query
parameters; otherwise parse the query list into the buffer. -/
def urlParse (slice : List Nat) (queries_buf : List QueryParam) : UOut Url :=
  ubind (uri_parse_path slice) (fun pb =>
    if pb.2 = slice.length ∨ queries_buf = [] then .ok ⟨pb.1, none⟩
    else
      ubind (parse_query_params (slice.drop pb.2) queries_buf) (fun buf2 =>
      .ok ⟨pb.1, some buf2⟩))

/-- The validity invariant one parsed header satisfies for the in-struct
scanners: the name is a run of letters and `-`, and the value is
`CR`-free. -/
def hdrOkS (h : Header) : Prop :=
  (∀ c ∈ h.name, structNameSafeB c = true) ∧ 13 ∉ h.val

/-- Validity of a header for the table-driven src/lib.rs scanner. -/
def libHdrOk (h : Header) : Prop :=
  (∀ c ∈ h.name, hdrNameSafeB c = true) ∧ 13 ∉ h.val

/-- The serialized header block consumed by src/lib.rs `parse_headers`:
the header lines followed by the blank-line terminator. -/
def blockBytes (hs : List Header) : List Nat := hdrLines hs ++ [13, 10]

/-- `writeAll buf i hs` — the buffer after writing `hs` into consecutive
slots starting at `i` (the observable effect of the loop's
`headers_buf[iteration] = ...` writes). -/
def writeAll (buf : List Header) (i : Nat) : List Header → List Header
  | [] => buf
  | h :: t => writeAll (buf.set i h) (i + 1) t

/-- All bytes of a field are ASCII (< 128). -/
def allAscii (xs : List Nat) : Prop := ∀ c ∈ xs, c < 128

/-- A serialized header line with its terminator moved to the front:
`"\r\n" ++ name ++ ": " ++ val`.  Regrouping the wire image of a message
into blocks of this shape puts the blank-line terminator `"\r\n\r\n"` at
the end, which is the decomposition used to locate the first
`"\r\n\r\n"` window. -/
def cline (h : Header) : List Nat := 13 :: 10 :: (h.name ++ [58, 32] ++ h.val)

/-- Concatenation of `cline`s. -/
def clines : List Header → List Nat
  | [] => []
  | h :: t => cline h ++ clines t

/-- The wire image of a request built from a method token (the literal
including its trailing space), a path, headers and a body — the exact byte
string `Request::as_bytes` produces. -/
def reqWire (tok p : List Nat) (hs : List Header) (body : List Nat) : List Nat :=
  tok ++ p ++ 32 :: ([72, 84, 84, 80, 47, 49, 46, 49] ++ (13 :: 10 :: hdrLines hs)
    ++ (13 :: 10 :: body))

/- ------------------------------------------------------------------ -/
/- Theorems.                                                           -/
/- ------------------------------------------------------------------ -/

/-- List kit: taking `u.length + k` elements of `u ++ w`. -/
theorem take_len_plus {α : Type} (u w : List α) (k : Nat) :
    (u ++ w).take (u.length + k) = u ++ w.take k := by
  simp [List.take_append]

/-- List kit: dropping `u.length + k` elements of `u ++ w`. -/
theorem drop_len_plus {α : Type} (u w : List α) (k : Nat) :
    (u ++ w).drop (u.length + k) = w.drop k := by
  simp [List.drop_append]

/-- List kit: taking two bytes past `u` out of `u ++ a :: b :: w`. -/
theorem take_app2 {α : Type} (u : List α) (a b : α) (w : List α) :
    (u ++ (a :: b :: w)).take (u.length + 2) = u ++ [a, b] := by
  have h := take_len_plus u (a :: b :: w) 2
  simpa using h

/-- List kit: dropping two bytes past `u` out of `u ++ a :: b :: w`. -/
theorem drop_app2 {α : Type} (u : List α) (a b : α) (w : List α) :
    (u ++ (a :: b :: w)).drop (u.length + 2) = w := by
  have h := drop_len_plus u (a :: b :: w) 2
  simpa using h

/-- List kit: `getD` out of range yields the default. -/
theorem getD_out {α : Type} (l : List α) (d : α) (n : Nat) (h : l.length ≤ n) :
    l.getD n d = d := by
  simp [List.getD, List.getElem?_eq_none h]

/-- Bytes at or above 128 are in neither character table. -/
theorem tables_high : ∀ c, c < 256 → 128 ≤ c →
    (urlSafeB c = false ∧ hdrNameSafeB c = false) := by decide

/-- `URL_SAFE` membership implies an ASCII byte. -/
theorem urlSafeB_ascii {c : Nat} (h : urlSafeB c = true) : c < 128 := by
  by_contra hc
  push_neg at hc
  rcases Nat.lt_or_ge c 256 with h2 | h2
  · rw [(tables_high c h2 hc).1] at h
    exact Bool.false_ne_true h
  · rw [urlSafeB, getD_out _ _ _ (by rw [show URL_SAFE.length = 256 from rfl]; omega)] at h
    exact absurd h (by decide)

/-- `HEADER_NAME_SAFE` membership implies an ASCII byte. -/
theorem hdrNameSafeB_ascii {c : Nat} (h : hdrNameSafeB c = true) : c < 128 := by
  by_contra hc
  push_neg at hc
  rcases Nat.lt_or_ge c 256 with h2 | h2
  · rw [(tables_high c h2 hc).2] at h
    exact Bool.false_ne_true h
  · rw [hdrNameSafeB, getD_out _ _ _ (by rw [show HEADER_NAME_SAFE.length = 256 from rfl]; omega)] at h
    exact absurd h (by decide)

/-- The letters-and-dash class of the in-struct header-name scan is ASCII. -/
theorem structNameSafeB_ascii {c : Nat} (h : structNameSafeB c = true) : c < 128 := by
  simp [structNameSafeB] at h
  omega

/-- The letters-and-dash class excludes `CR`. -/
theorem structNameSafeB_ne_cr {c : Nat} (h : structNameSafeB c = true) : c ≠ 13 := by
  simp [structNameSafeB] at h
  omega

/-- The reason-phrase class is ASCII. -/
theorem reasonSafeB_ascii {c : Nat} (h : reasonSafeB c = true) : c < 128 := by
  simp [reasonSafeB, SPACE] at h
  omega

/-- `URL_SAFE` membership excludes `CR`. -/
theorem urlSafeB_ne_cr {c : Nat} (h : urlSafeB c = true) : c ≠ 13 := by
  intro hc
  subst hc
  exact absurd h (by decide)

/-- An ASCII digit is neither `CR` nor `SPACE` nor `LF`. -/
theorem digitB_ne {c : Nat} (h : digitB c = true) : c ≠ 13 ∧ c ≠ 32 ∧ c ≠ 10 := by
  simp [digitB] at h
  omega

/-- `scanWhile` stops exactly at the first byte violating the class. -/
theorem scanWhile_stop {p : Nat → Bool} {u : List Nat} (hu : ∀ c ∈ u, p c = true)
    {c : Nat} (hc : p c = false) (w : List Nat) :
    scanWhile p (u ++ c :: w) = (u, c :: w) := by
  induction u with
  | nil => simp [scanWhile, hc]
  | cons a t ih =>
    have ha : p a = true := hu a (by simp)
    have ht : ∀ x ∈ t, p x = true := fun x hx => hu x (by simp [hx])
    simp [scanWhile, ha, ih ht]

/-- `scanWhile` consumes a list all of whose bytes satisfy the class. -/
theorem scanWhile_all {p : Nat → Bool} {l : List Nat} (hl : ∀ c ∈ l, p c = true) :
    scanWhile p l = (l, []) := by
  induction l with
  | nil => simp [scanWhile]
  | cons a t ih =>
    have ha : p a = true := hl a (by simp)
    have ht : ∀ x ∈ t, p x = true := fun x hx => hl x (by simp [hx])
    simp [scanWhile, ha, ih ht]

/-- Every byte of the scanned prefix satisfies the class. -/
theorem scanWhile_sat (p : Nat → Bool) (l : List Nat) :
    ∀ c ∈ (scanWhile p l).1, p c = true := by
  induction l with
  | nil => simp [scanWhile]
  | cons a t ih =>
    by_cases ha : p a = true
    · simp only [scanWhile, ha, if_true]
      intro c hc
      rcases List.mem_cons.mp hc with h | h
      · exact h ▸ ha
      · exact ih c h
    · simp [scanWhile, ha]

/-- The two `scanWhile` components reassemble the input. -/
theorem scanWhile_app (p : Nat → Bool) (l : List Nat) :
    (scanWhile p l).1 ++ (scanWhile p l).2 = l := by
  induction l with
  | nil => simp [scanWhile]
  | cons a t ih =>
    by_cases ha : p a = true
    · simp [scanWhile, ha, ih]
    · simp [scanWhile, ha]

/-- `parse_method` on a buffer starting with the `"GET "` literal. -/
theorem parse_method_get (rest : List Nat) :
    parse_method (71 :: 69 :: 84 :: 32 :: rest) = .ok (.Get, rest) := by
  rw [parse_method, if_neg (by simp), if_pos (by simp)]
  simp

/-- `parse_method` on a buffer starting with the `"POST "` literal: the
source's `POST` branch returns `Method::Get`. -/
theorem parse_method_post (rest : List Nat) :
    parse_method (80 :: 79 :: 83 :: 84 :: 32 :: rest) = .ok (.Get, rest) := by
  rw [parse_method, if_neg (by simp), if_neg (by simp), if_neg (by simp), if_pos (by simp)]
  simp

/-- `parse_method` never yields anything but `Get` (the `POST` branch of
the source also returns `Method::Get`). -/
theorem parse_method_sound {bs : List Nat} {m : Method} {r : List Nat}
    (h : parse_method bs = .ok (m, r)) : m = .Get := by
  unfold parse_method at h
  split_ifs at h <;> cases h <;> rfl

/-- `parse_path` on a nonempty `URL_SAFE` path followed by a space. -/
theorem parse_path_ok {p : List Nat} (hne : p ≠ []) (hp : ∀ c ∈ p, urlSafeB c = true)
    (w : List Nat) : parse_path (p ++ 32 :: w) = .ok (p, w) := by
  rw [parse_path, scanWhile_stop hp (by decide) w]
  simp [SPACE, hne]

/-- A path produced by `parse_path` is nonempty and all `URL_SAFE`. -/
theorem parse_path_sound {bs : List Nat} {p r : List Nat}
    (h : parse_path bs = .ok (p, r)) : p ≠ [] ∧ ∀ c ∈ p, urlSafeB c = true := by
  have hsat := scanWhile_sat urlSafeB bs
  rw [parse_path] at h
  rcases hscan : scanWhile urlSafeB bs with ⟨pre, rest⟩
  rw [hscan] at h hsat
  rcases rest with _ | ⟨c, r2⟩
  · cases h
  · simp only at h hsat
    split_ifs at h <;> cases h
    exact ⟨by assumption, hsat⟩

/-- `parse_http_version` on a buffer starting with `"HTTP/1.1\r\n"`. -/
theorem parse_http_version_ok (rest : List Nat) :
    parse_http_version (72 :: 84 :: 84 :: 80 :: 47 :: 49 :: 46 :: 49 :: 13 :: 10 :: rest)
      = .ok (.One, rest) := by
  rw [parse_http_version, if_neg (by simp), if_pos (by simp)]
  simp

/-- The in-struct `parse_header_name` on `name ++ ": " ++ rest`: the name
closes at the colon and exactly the one following space is skipped. -/
theorem parse_header_name_ok {n : List Nat} (hn : ∀ c ∈ n, structNameSafeB c = true)
    (w : List Nat) : parse_header_name (n ++ 58 :: 32 :: w) = .ok (n, w) := by
  rw [parse_header_name, scanWhile_stop hn (by decide) (32 :: w)]
  simp [COLON, SPACE]

/-- A name produced by the in-struct `parse_header_name` is a run of
letters and `-`. -/
theorem parse_header_name_sound {bs : List Nat} {n r : List Nat}
    (h : parse_header_name bs = .ok (n, r)) : ∀ c ∈ n, structNameSafeB c = true := by
  have hsat := scanWhile_sat structNameSafeB bs
  rw [parse_header_name] at h
  rcases hscan : scanWhile structNameSafeB bs with ⟨pre, rest⟩
  rw [hscan] at h hsat
  rcases rest with _ | ⟨c, r2⟩
  · cases h
    simp
  · simp only at h hsat
    by_cases hcol : c = COLON
    · rw [if_pos hcol] at h
      rcases r2 with _ | ⟨d, r3⟩
      · cases h
      · simp only at h
        by_cases hd : d = SPACE ∨ d = 9
        · rw [if_pos hd] at h
          cases h
          exact hsat
        · rw [if_neg hd] at h
          cases h
          exact hsat
    · rw [if_neg hcol] at h
      cases h

/-- The in-struct `parse_header_value` on `val ++ "\r\n" ++ rest` for a
`CR`-free value. -/
theorem parse_header_value_ok {v : List Nat} (hv : 13 ∉ v) (w : List Nat) :
    parse_header_value (v ++ 13 :: 10 :: w) = .ok (v, w) := by
  have hall : ∀ c ∈ v, (c != CR) = true := by
    intro c hc
    simp [CR]
    intro he
    exact hv (he ▸ hc)
  rw [parse_header_value, scanWhile_stop hall (by simp [CR]) (10 :: w)]
  simp [LF]

/-- A value produced by the in-struct `parse_header_value` is `CR`-free. -/
theorem parse_header_value_sound {bs : List Nat} {v r : List Nat}
    (h : parse_header_value bs = .ok (v, r)) : 13 ∉ v := by
  have hsat := scanWhile_sat (fun c => c != CR) bs
  rw [parse_header_value] at h
  rcases hscan : scanWhile (fun c => c != CR) bs with ⟨pre, rest⟩
  rw [hscan] at h hsat
  rcases rest with _ | ⟨c, r2⟩
  · cases h
  · rcases r2 with _ | ⟨d, r3⟩
    · cases h
    · simp only at h hsat
      split_ifs at h
      cases h
      intro hc
      have := hsat 13 hc
      simp [CR] at this

/-- One-step reduction of the header loop on a nonempty buffer. -/
theorem parse_headers_go_cons {fuel : Nat} {acc : List Header} {bs : List Nat} (h : bs ≠ []) :
    parse_headers_go (fuel + 1) acc bs =
      pbind (parse_header_name bs) (fun nb =>
      pbind (parse_header_value nb.2) (fun vb =>
      parse_headers_go fuel (acc ++ [⟨nb.1, vb.1⟩]) vb.2)) := by
  cases bs with
  | nil => exact absurd rfl h
  | cons a t => rfl

/-- The header loop consumes a serialized header block and returns exactly
the headers it encodes. -/
theorem parse_headers_go_ok (hs : List Header) :
    ∀ (acc : List Header) (fuel : Nat), (∀ h ∈ hs, hdrOkS h) →
    (hdrLines hs).length < fuel →
    parse_headers_go fuel acc (hdrLines hs) = .ok (acc ++ hs, []) := by
  induction hs with
  | nil =>
    intro acc fuel _ hfuel
    cases fuel with
    | zero => omega
    | succ f => simp [hdrLines, parse_headers_go]
  | cons h t ih =>
    intro acc fuel hok hfuel
    have hlineok : hdrOkS h := hok h (by simp)
    have htok : ∀ x ∈ t, hdrOkS x := fun x hx => hok x (by simp [hx])
    have hlen : (hdrLines (h :: t)).length
        = h.name.length + 2 + (h.val.length + 2) + (hdrLines t).length := by
      simp [hdrLines, headerLineBytes]
      omega
    cases fuel with
    | zero => omega
    | succ f =>
      have hne : hdrLines (h :: t) ≠ [] := by
        simp [hdrLines, headerLineBytes]
      rw [parse_headers_go_cons hne]
      have hshape : hdrLines (h :: t) = h.name ++ 58 :: 32 :: (h.val ++ 13 :: 10 :: hdrLines t) := by
        simp [hdrLines, headerLineBytes]
      rw [hshape, parse_header_name_ok hlineok.1]
      simp only [pbind]
      rw [parse_header_value_ok hlineok.2]
      simp only [pbind]
      have hrec : parse_headers_go f (acc ++ [⟨h.name, h.val⟩]) (hdrLines t)
          = .ok ((acc ++ [⟨h.name, h.val⟩]) ++ t, []) := by
        apply ih _ _ htok
        omega
      rw [hrec]
      simp

/-- Every header produced by the header loop has a letters-and-dash name
and a `CR`-free value. -/
theorem parse_headers_go_sound :
    ∀ (fuel : Nat) (acc : List Header) (bs : List Nat) (hs : List Header) (r : List Nat),
    parse_headers_go fuel acc bs = .ok (hs, r) → (∀ h ∈ acc, hdrOkS h) →
    ∀ h ∈ hs, hdrOkS h := by
  intro fuel
  induction fuel with
  | zero => intro acc bs hs r h _; cases h
  | succ f ih =>
    intro acc bs hs r h hacc
    cases bs with
    | nil =>
      simp [parse_headers_go] at h
      exact h.1 ▸ hacc
    | cons a t =>
      rw [parse_headers_go_cons (by simp)] at h
      rcases hn : parse_header_name (a :: t) with ⟨n, bs1⟩ | e | _ <;>
        rw [hn] at h <;> simp only [pbind] at h
      · rcases hv : parse_header_value bs1 with ⟨v, bs2⟩ | e | _ <;>
          rw [hv] at h <;> simp only [pbind] at h
        · apply ih _ _ _ _ h
          intro x hx
          rcases List.mem_append.mp hx with hx | hx
          · exact hacc x hx
          · have hxe : x = Header.mk n v := by simpa using hx
            rw [hxe]
            exact ⟨parse_header_name_sound hn, parse_header_value_sound hv⟩
        · cases h
        · cases h
      · cases h
      · cases h

/-- `find_substr` on fewer than four bytes finds no `"\r\n\r\n"` window. -/
theorem find_substr_short {bs : List Nat} (h : bs.length < 4) (i : Nat) :
    find_substr [13, 10, 13, 10] bs i = none := by
  cases bs with
  | nil => simp [find_substr]
  | cons c r =>
    rw [find_substr, if_neg]
    simp only [List.length_cons] at h ⊢
    simp
    omega

/-- `find_substr` reports the head position when the window matches
there. -/
theorem find_substr_found {bs : List Nat} (h : bs.take 4 = [13, 10, 13, 10]) (i : Nat) :
    find_substr [13, 10, 13, 10] bs i = some i := by
  have hlen : 4 ≤ bs.length := by
    have h2 := congrArg List.length h
    simp [List.length_take] at h2
    omega
  cases bs with
  | nil => simp at hlen
  | cons c r =>
    rw [find_substr, if_pos (by simpa using hlen), if_pos (by simpa using h)]

/-- `find_substr` skips a head byte that is not `CR`. -/
theorem find_substr_skip {c : Nat} (hc : c ≠ 13) (r : List Nat) (i : Nat) :
    find_substr [13, 10, 13, 10] (c :: r) i = find_substr [13, 10, 13, 10] r (i + 1) := by
  by_cases hle : 4 ≤ (c :: r).length
  · rw [find_substr, if_pos (by simpa using hle), if_neg]
    intro htake
    simp [List.take_succ_cons] at htake
    exact hc htake.1
  · rw [find_substr, if_neg (by simpa using hle),
      find_substr_short (by simp at hle ⊢; omega)]

/-- `find_substr` skips a whole `CR`-free prefix. -/
theorem find_substr_crfree {u : List Nat} (hu : ∀ c ∈ u, c ≠ 13) (w : List Nat) :
    ∀ i, find_substr [13, 10, 13, 10] (u ++ w) i = find_substr [13, 10, 13, 10] w (i + u.length) := by
  induction u with
  | nil => intro i; simp
  | cons a t ih =>
    intro i
    have ha : a ≠ 13 := hu a (by simp)
    have ht : ∀ c ∈ t, c ≠ 13 := fun c hc => hu c (by simp [hc])
    rw [List.cons_append, find_substr_skip ha, ih ht,
      show i + 1 + t.length = i + (a :: t).length from by simp [List.length_cons]; omega]

/-- `find_substr` steps over a `"\r\n"` whose window does not complete to
`"\r\n\r\n"` because the byte two places later is not `CR`. -/
theorem find_substr_cr_mismatch {z0 : Nat} (hz0 : z0 ≠ 13) (zr : List Nat) (i : Nat) :
    find_substr [13, 10, 13, 10] (13 :: 10 :: z0 :: zr) i
      = find_substr [13, 10, 13, 10] (10 :: z0 :: zr) (i + 1) := by
  by_cases hle : 4 ≤ (13 :: 10 :: z0 :: zr : List Nat).length
  · rw [find_substr, if_pos (by simpa using hle), if_neg]
    intro htake
    simp [List.take_succ_cons] at htake
    exact hz0 htake.1
  · rw [find_substr, if_neg (by simpa using hle),
      find_substr_short (by simp only [List.length_cons] at hle ⊢; omega)]

/-- The first `": "`-bearing byte string of a valid header is nonempty and
does not start with `CR`. -/
theorem inner_decomp (h : Header) (hh : hdrOkS h) (X : List Nat) :
    ∃ z0 zr, (h.name ++ [58, 32] ++ h.val) ++ X = z0 :: zr ∧ z0 ≠ 13 := by
  cases hn : h.name with
  | nil => exact ⟨58, 32 :: (h.val ++ X), by simp [hn], by decide⟩
  | cons a nm =>
    refine ⟨a, (nm ++ [58, 32] ++ h.val) ++ X, by simp [hn], ?_⟩
    exact structNameSafeB_ne_cr (hh.1 a (by rw [hn]; simp))

/-- All bytes of a valid header's `cline` payload differ from `CR`. -/
theorem inner_crfree (h : Header) (hh : hdrOkS h) :
    ∀ c ∈ h.name ++ [58, 32] ++ h.val, c ≠ 13 := by
  intro c hc
  simp at hc
  rcases hc with hc | hc | hc | hc
  · exact structNameSafeB_ne_cr (hh.1 c hc)
  · omega
  · omega
  · intro he
    exact hh.2 (he ▸ hc)

/-- In a chain of valid `cline` blocks followed by `"\r\n\r\n"`, the first
`"\r\n\r\n"` window sits exactly at the end of the blocks. -/
theorem find_substr_block (body : List Nat) :
    ∀ (hs : List Header), (∀ h ∈ hs, hdrOkS h) → ∀ i,
    find_substr [13, 10, 13, 10] (clines hs ++ 13 :: 10 :: 13 :: 10 :: body) i
      = some (i + (clines hs).length) := by
  intro hs
  induction hs with
  | nil =>
    intro _ i
    simp only [clines, List.nil_append, List.length_nil, Nat.add_zero]
    exact find_substr_found (by simp) i
  | cons h t ih =>
    intro hok i
    have hh : hdrOkS h := hok h (by simp)
    have htok : ∀ x ∈ t, hdrOkS x := fun x hx => hok x (by simp [hx])
    obtain ⟨z0, zr, hz, hz0⟩ := inner_decomp h hh (clines t ++ 13 :: 10 :: 13 :: 10 :: body)
    have hshape : clines (h :: t) ++ 13 :: 10 :: 13 :: 10 :: body
        = 13 :: 10 :: (z0 :: zr) := by
      rw [← hz]
      simp [clines, cline, List.append_assoc]
    rw [hshape, find_substr_cr_mismatch hz0, find_substr_skip (by decide), ← hz,
      find_substr_crfree (inner_crfree h hh), ih htok]
    have hlen : (clines (h :: t)).length
        = 2 + (h.name ++ [58, 32] ++ h.val).length + (clines t).length := by
      simp [clines, cline]
      omega
    rw [hlen]
    congr 1
    omega

/-- Moving a leading `"\r\n"` across serialized header lines: the
terminator-in-front regrouping. -/
theorem crlf_hdrLines_app (hs : List Header) (w : List Nat) :
    13 :: 10 :: (hdrLines hs ++ w) = clines hs ++ (13 :: 10 :: w) := by
  induction hs with
  | nil => simp [hdrLines, clines]
  | cons h t ih =>
    calc 13 :: 10 :: (hdrLines (h :: t) ++ w)
        = cline h ++ (13 :: 10 :: (hdrLines t ++ w)) := by
          simp [hdrLines, cline, headerLineBytes, List.append_assoc]
      _ = cline h ++ (clines t ++ (13 :: 10 :: w)) := by rw [ih]
      _ = clines (h :: t) ++ (13 :: 10 :: w) := by simp [clines, List.append_assoc]

/-- The wire image regrouped so that the blank-line terminator's
`"\r\n\r\n"` window is explicit. -/
theorem reqWire_decomp (tok p : List Nat) (hs : List Header) (body : List Nat) :
    reqWire tok p hs body
      = (tok ++ p ++ 32 :: [72, 84, 84, 80, 47, 49, 46, 49])
          ++ (clines hs ++ 13 :: 10 :: 13 :: 10 :: body) := by
  rw [reqWire]
  have h1 : (13 :: 10 :: hdrLines hs) ++ (13 :: 10 :: body)
      = clines hs ++ 13 :: 10 :: 13 :: 10 :: body := by
    rw [show (13 :: 10 :: hdrLines hs) ++ (13 :: 10 :: body)
        = 13 :: 10 :: (hdrLines hs ++ 13 :: 10 :: body) from by simp,
      crlf_hdrLines_app]
  rw [← h1]
  simp [List.append_assoc]

/-- Unfolding `requestParse` when the terminator search succeeds. -/
theorem requestParse_some {bs : List Nat} {idx : Nat}
    (hf : find_substr [13, 10, 13, 10] bs 0 = some idx) :
    requestParse bs =
      (if (bs.take (idx + 2)).length < 14 then .err .Malformed
      else
        pbind (parse_method (bs.take (idx + 2))) (fun mb =>
        pbind (parse_path mb.2) (fun pb =>
        if pb.2.length < 10 then .err .Malformed
        else
          pbind (parse_http_version pb.2) (fun vb =>
          pbind (parse_headers vb.2) (fun hb =>
          .ok ⟨mb.1, pb.1, hb.1, (bs.drop (idx + 2)).drop 2⟩))))) := by
  rw [requestParse, hf]

/-- Unfolding `requestParse` when no `"\r\n\r\n"` exists. -/
theorem requestParse_none {bs : List Nat}
    (hf : find_substr [13, 10, 13, 10] bs 0 = none) :
    requestParse bs = .err .Malformed := by
  rw [requestParse, hf]

/-- Unfolding `responseParse` when the terminator search succeeds. -/
theorem responseParse_some {bs : List Nat} {idx : Nat}
    (hf : find_substr [13, 10, 13, 10] bs 0 = some idx) :
    responseParse bs =
      (if (bs.take (idx + 2)).length < 12 then .err .Malformed
      else
        pbind (resp_parse_http_version (bs.take (idx + 2))) (fun vb =>
        pbind (parse_status vb.2) (fun sb =>
        pbind (resp_parse_headers sb.2) (fun hb =>
        .ok ⟨sb.1.1, sb.1.2, hb.1, (bs.drop (idx + 2)).drop 2⟩)))) := by
  rw [responseParse, hf]

/-- Unfolding `responseParse` when no `"\r\n\r\n"` exists. -/
theorem responseParse_none {bs : List Nat}
    (hf : find_substr [13, 10, 13, 10] bs 0 = none) :
    responseParse bs = .err .Malformed := by
  rw [responseParse, hf]

/-- Parsing the exact wire image of a request built from a `"GET "` or
`"POST "` token, a valid path, valid headers and a body: it succeeds and
returns the components (with method `Get` in both cases). -/
theorem requestParse_reqWire {tok p : List Nat} {hs : List Header} {body : List Nat}
    (htok : tok = [71, 69, 84, 32] ∨ tok = [80, 79, 83, 84, 32])
    (hne : p ≠ []) (hp : ∀ c ∈ p, urlSafeB c = true)
    (hhs : ∀ h ∈ hs, hdrOkS h) :
    requestParse (reqWire tok p hs body) = .ok ⟨.Get, p, hs, body⟩ := by
  have hplen : 1 ≤ p.length := List.length_pos.mpr hne
  have htoklen : tok.length = 4 ∨ tok.length = 5 := by
    rcases htok with h | h <;> rw [h] <;> simp
  have hprecr : ∀ c ∈ tok ++ p ++ 32 :: [72, 84, 84, 80, 47, 49, 46, 49], c ≠ 13 := by
    intro c hc
    simp at hc
    rcases hc with hc | hc | hc | hc
    · rcases htok with h | h <;> rw [h] at hc <;> simp at hc <;> omega
    · exact urlSafeB_ne_cr (hp c hc)
    · omega
    · rcases hc with hc | hc | hc | hc | hc | hc | hc | hc <;> omega
  have hfind : find_substr [13, 10, 13, 10] (reqWire tok p hs body) 0
      = some ((tok ++ p ++ 32 :: [72, 84, 84, 80, 47, 49, 46, 49]).length + (clines hs).length) := by
    rw [reqWire_decomp, find_substr_crfree hprecr, find_substr_block body hs hhs]
    simp
  rw [requestParse_some hfind]
  have hsplit : reqWire tok p hs body
      = ((tok ++ p ++ 32 :: [72, 84, 84, 80, 47, 49, 46, 49]) ++ clines hs)
        ++ (13 :: 10 :: 13 :: 10 :: body) := by
    rw [reqWire_decomp]
    simp [List.append_assoc]
  have h2 := take_app2 ((tok ++ p ++ 32 :: [72, 84, 84, 80, 47, 49, 46, 49]) ++ clines hs)
      13 10 (13 :: 10 :: body)
  rw [List.length_append] at h2
  have h3 := drop_app2 ((tok ++ p ++ 32 :: [72, 84, 84, 80, 47, 49, 46, 49]) ++ clines hs)
      13 10 (13 :: 10 :: body)
  rw [List.length_append] at h3
  have hres : (reqWire tok p hs body).take
      ((tok ++ p ++ 32 :: [72, 84, 84, 80, 47, 49, 46, 49]).length + (clines hs).length + 2)
      = tok ++ p ++ 32 :: ([72, 84, 84, 80, 47, 49, 46, 49] ++ (13 :: 10 :: hdrLines hs)) := by
    rw [hsplit, h2,
      show (13 : Nat) :: 10 :: hdrLines hs = clines hs ++ [13, 10] from by
        simpa using crlf_hdrLines_app hs []]
    simp [List.append_assoc]
  have hbody : (reqWire tok p hs body).drop
      ((tok ++ p ++ 32 :: [72, 84, 84, 80, 47, 49, 46, 49]).length + (clines hs).length + 2)
      = 13 :: 10 :: body := by
    rw [hsplit, h3]
  rw [hres, hbody]
  rw [if_neg (by
    rcases htoklen with h | h <;> simp [h] <;> omega)]
  rcases htok with hg | hg <;> rw [hg]
  · rw [show ([71, 69, 84, 32] : List Nat) ++ p ++ 32 :: ([72, 84, 84, 80, 47, 49, 46, 49]
        ++ (13 :: 10 :: hdrLines hs))
      = 71 :: 69 :: 84 :: 32 :: (p ++ 32 :: ([72, 84, 84, 80, 47, 49, 46, 49]
        ++ (13 :: 10 :: hdrLines hs))) from by simp]
    rw [parse_method_get]
    simp only [pbind]
    rw [parse_path_ok hne hp]
    simp only [pbind]
    rw [if_neg (by simp)]
    rw [show ([72, 84, 84, 80, 47, 49, 46, 49] : List Nat) ++ (13 :: 10 :: hdrLines hs)
      = 72 :: 84 :: 84 :: 80 :: 47 :: 49 :: 46 :: 49 :: 13 :: 10 :: hdrLines hs from by simp]
    rw [parse_http_version_ok]
    simp only [pbind]
    rw [show parse_headers (hdrLines hs) = .ok (hs, []) from by
      rw [parse_headers]
      simpa using parse_headers_go_ok hs [] ((hdrLines hs).length + 1) hhs (by omega)]
    simp only [pbind]
    simp
  · rw [show ([80, 79, 83, 84, 32] : List Nat) ++ p ++ 32 :: ([72, 84, 84, 80, 47, 49, 46, 49]
        ++ (13 :: 10 :: hdrLines hs))
      = 80 :: 79 :: 83 :: 84 :: 32 :: (p ++ 32 :: ([72, 84, 84, 80, 47, 49, 46, 49]
        ++ (13 :: 10 :: hdrLines hs))) from by simp]
    rw [parse_method_post]
    simp only [pbind]
    rw [parse_path_ok hne hp]
    simp only [pbind]
    rw [if_neg (by simp)]
    rw [show ([72, 84, 84, 80, 47, 49, 46, 49] : List Nat) ++ (13 :: 10 :: hdrLines hs)
      = 72 :: 84 :: 84 :: 80 :: 47 :: 49 :: 46 :: 49 :: 13 :: 10 :: hdrLines hs from by simp]
    rw [parse_http_version_ok]
    simp only [pbind]
    rw [show parse_headers (hdrLines hs) = .ok (hs, []) from by
      rw [parse_headers]
      simpa using parse_headers_go_ok hs [] ((hdrLines hs).length + 1) hhs (by omega)]
    simp only [pbind]
    simp

/-- Inversion: anything `requestParse` accepts satisfies the structural
invariant — the method is `Get`, the path is a nonempty `URL_SAFE` run,
every header name is a run of letters and `-`, and no header value
contains `CR`. -/
theorem requestParse_sound {bs : List Nat} {r : Request}
    (h : requestParse bs = .ok r) :
    r.method = .Get ∧ (r.path ≠ [] ∧ ∀ c ∈ r.path, urlSafeB c = true)
      ∧ ∀ hd ∈ r.headers, hdrOkS hd := by
  rcases hf : find_substr [13, 10, 13, 10] bs 0 with _ | idx
  · rw [requestParse_none hf] at h
    cases h
  · rw [requestParse_some hf] at h
    by_cases h14 : (bs.take (idx + 2)).length < 14
    · rw [if_pos h14] at h
      cases h
    · rw [if_neg h14] at h
      rcases hm : parse_method (bs.take (idx + 2)) with ⟨m, b1⟩ | e | _ <;>
        rw [hm] at h <;> simp only [pbind] at h
      · rcases hp2 : parse_path b1 with ⟨p, b2⟩ | e | _ <;>
          rw [hp2] at h <;> simp only [pbind] at h
        · by_cases h10 : b2.length < 10
          · rw [if_pos h10] at h
            cases h
          · rw [if_neg h10] at h
            rcases hv : parse_http_version b2 with ⟨vv, b3⟩ | e | _ <;>
              rw [hv] at h <;> simp only [pbind] at h
            · rcases hh : parse_headers b3 with ⟨hs2, rr⟩ | e | _ <;>
                rw [hh] at h <;> simp only [pbind] at h
              · cases h
                refine ⟨parse_method_sound hm, parse_path_sound hp2, ?_⟩
                rw [parse_headers] at hh
                exact parse_headers_go_sound _ _ _ _ _ hh (by simp)
              · cases h
              · cases h
            · cases h
            · cases h
        · cases h
        · cases h
      · cases h
      · cases h

/-- `as_bytes` is the wire image built from the method token, path,
headers and body. -/
theorem as_bytes_eq_reqWire (r : Request) :
    as_bytes r = reqWire (methodBytes r.method ++ [32]) r.path r.headers r.body := by
  rw [as_bytes, reqWire]
  simp [List.append_assoc]

/-- An input whose first bytes are neither `"GET "` nor `"POST "` is
rejected by `requestParse` with `Malformed`. -/
theorem requestParse_bad_prefix {bs : List Nat}
    (h4 : bs.take 4 ≠ [71, 69, 84, 32]) (h5 : bs.take 5 ≠ [80, 79, 83, 84, 32]) :
    requestParse bs = .err .Malformed := by
  rcases hf : find_substr [13, 10, 13, 10] bs 0 with _ | idx
  · exact requestParse_none hf
  · rw [requestParse_some hf]
    by_cases h14 : (bs.take (idx + 2)).length < 14
    · rw [if_pos h14]
    · rw [if_neg h14]
      have hbounds : 14 ≤ idx + 2 ∧ 14 ≤ bs.length := by
        push_neg at h14
        rw [List.length_take] at h14
        omega
      have hm : parse_method (bs.take (idx + 2)) = .err .Malformed := by
        rw [parse_method,
          if_neg (by rw [List.length_take]; omega),
          if_neg (by rw [List.take_take, show min 4 (idx + 2) = 4 from by omega]; exact h4),
          if_neg (by rw [List.length_take]; omega),
          if_neg (by rw [List.take_take, show min 5 (idx + 2) = 5 from by omega]; exact h5)]
      rw [hm]
      simp only [pbind]

/-- A `CR`-free byte string contains no `"\r\n\r\n"` window at all. -/
theorem find_substr_none_crfree {u : List Nat} (hu : ∀ c ∈ u, c ≠ 13) (i : Nat) :
    find_substr [13, 10, 13, 10] u i = none := by
  have h := find_substr_crfree hu [] i
  simp at h
  rw [h, find_substr]
  simp

/-- A single `"\r\n"` followed by a `CR`-free tail contains no
`"\r\n\r\n"` window. -/
theorem find_substr_crlf_crfree {tail : List Nat} (ht : ∀ c ∈ tail, c ≠ 13) (i : Nat) :
    find_substr [13, 10, 13, 10] (13 :: 10 :: tail) i = none := by
  rcases tail with _ | ⟨t0, t1⟩
  · exact find_substr_short (by decide) i
  · rcases t1 with _ | ⟨t2, t3⟩
    · exact find_substr_short (by simp) i
    · rw [find_substr, if_pos (by simp),
        if_neg (by
          intro hc
          simp [List.take_succ_cons] at hc
          exact (ht t0 (by simp)) hc.1),
        find_substr_skip (by decide), find_substr_none_crfree ht]

/-- Position and length bounds for a found `"\r\n\r\n"` window. -/
theorem find_substr_bound :
    ∀ (bs : List Nat) (i j : Nat), find_substr [13, 10, 13, 10] bs i = some j →
    i ≤ j ∧ (j - i) + 4 ≤ bs.length := by
  intro bs
  induction bs with
  | nil =>
    intro i j h
    rw [find_substr] at h
    simp at h
  | cons c r ih =>
    intro i j h
    rw [find_substr] at h
    by_cases hle : ([13, 10, 13, 10] : List Nat).length ≤ (c :: r).length
    · rw [if_pos hle] at h
      by_cases htake : (c :: r).take ([13, 10, 13, 10] : List Nat).length = [13, 10, 13, 10]
      · rw [if_pos htake] at h
        cases h
        simp at hle ⊢
        omega
      · rw [if_neg htake] at h
        have h2 := ih (i + 1) j h
        simp
        omega
    · rw [if_neg hle] at h
      cases h

/-- `resp_parse_http_version` on a buffer starting with `"HTTP/1.1 "`. -/
theorem resp_parse_http_version_ok (rest : List Nat) :
    resp_parse_http_version (72 :: 84 :: 84 :: 80 :: 47 :: 49 :: 46 :: 49 :: 32 :: rest)
      = .ok (.One, rest) := by
  rw [resp_parse_http_version, if_neg (by simp), if_pos (by simp)]
  simp

/-- One digit step of the status scan. -/
theorem parse_status_go_digit_step {c : Nat} (hc : digitB c = true) (acc r : List Nat) :
    parse_status_go acc (c :: r) = parse_status_go (acc ++ [c]) r := by
  rw [parse_status_go.eq_def]
  simp [hc]

/-- The status scan shifts a run of digits into the accumulator. -/
theorem parse_status_go_digits {ds : List Nat} (hd : ∀ d ∈ ds, digitB d = true) :
    ∀ (acc w : List Nat), parse_status_go acc (ds ++ w) = parse_status_go (acc ++ ds) w := by
  induction ds with
  | nil => simp
  | cons d t ih =>
    intro acc w
    have hdd : digitB d = true := hd d (by simp)
    have htd : ∀ x ∈ t, digitB x = true := fun x hx => hd x (by simp [hx])
    rw [List.cons_append, parse_status_go_digit_step hdd, ih htd,
      show acc ++ [d] ++ t = acc ++ d :: t from by simp]

/-- Membership in a `CR`-free literal list. -/
theorem mem_lit_ne_cr {c : Nat} {l : List Nat} (hl : 13 ∉ l) (hc : c ∈ l) : c ≠ 13 :=
  fun he => hl (he ▸ hc)

/-- A request line terminated by a bare `LF` (no `CR`) is rejected, no
matter what follows: the 10-byte version literal cannot match. -/
theorem reqline_bare_lf {p rest : List Nat} (hne : p ≠ []) (hp : ∀ c ∈ p, urlSafeB c = true) :
    requestParse ([71, 69, 84, 32] ++ p ++ 32 :: ([72, 84, 84, 80, 47, 49, 46, 49] ++ 10 :: rest))
      = .err .Malformed := by
  have hgroup : ([71, 69, 84, 32] ++ p ++ 32 :: ([72, 84, 84, 80, 47, 49, 46, 49] ++ 10 :: rest))
      = ([71, 69, 84, 32] ++ p ++ 32 :: [72, 84, 84, 80, 47, 49, 46, 49, 10]) ++ rest := by
    simp [List.append_assoc]
  have hucr : ∀ c ∈ ([71, 69, 84, 32] ++ p ++ 32 :: [72, 84, 84, 80, 47, 49, 46, 49, 10]), c ≠ 13 := by
    intro c hc
    rcases List.mem_append.mp hc with hc2 | hc2
    · rcases List.mem_append.mp hc2 with hc3 | hc3
      · exact mem_lit_ne_cr (by decide) hc3
      · exact urlSafeB_ne_cr (hp c hc3)
    · exact mem_lit_ne_cr (by decide) hc2
  rcases hf : find_substr [13, 10, 13, 10]
      ([71, 69, 84, 32] ++ p ++ 32 :: ([72, 84, 84, 80, 47, 49, 46, 49] ++ 10 :: rest)) 0 with _ | m
  · exact requestParse_none hf
  · have hf2 : find_substr [13, 10, 13, 10] rest
        (0 + ([71, 69, 84, 32] ++ p ++ 32 :: [72, 84, 84, 80, 47, 49, 46, 49, 10]).length)
        = some m := by
      rw [← find_substr_crfree hucr rest 0, ← hgroup]
      exact hf
    obtain ⟨hmge, hmlen⟩ := find_substr_bound rest _ m hf2
    have hulen : ([71, 69, 84, 32] ++ p ++ 32 :: [72, 84, 84, 80, 47, 49, 46, 49, 10]).length
        = p.length + 14 := by
      simp
    rw [hulen] at hmge hmlen
    have hplen : 1 ≤ p.length := List.length_pos.mpr hne
    have htk := take_len_plus ([71, 69, 84, 32] ++ p ++ 32 :: [72, 84, 84, 80, 47, 49, 46, 49, 10])
        rest (m + 2 - (p.length + 14))
    rw [hulen, show p.length + 14 + (m + 2 - (p.length + 14)) = m + 2 from by omega] at htk
    have hXlen : (rest.take (m + 2 - (p.length + 14))).length = m + 2 - (p.length + 14) := by
      rw [List.length_take]
      omega
    rw [requestParse_some hf, hgroup, htk]
    rw [if_neg (by simp; omega)]
    rw [show ([71, 69, 84, 32] ++ p ++ 32 :: [72, 84, 84, 80, 47, 49, 46, 49, 10])
          ++ rest.take (m + 2 - (p.length + 14))
        = 71 :: 69 :: 84 :: 32 :: (p ++ 32 ::
            (72 :: 84 :: 84 :: 80 :: 47 :: 49 :: 46 :: 49 :: 10 :: rest.take (m + 2 - (p.length + 14))))
      from by simp [List.append_assoc]]
    rw [parse_method_get]
    simp only [pbind]
    rw [parse_path_ok hne hp]
    simp only [pbind]
    rw [if_neg (by simp [hXlen]; omega)]
    rw [parse_http_version, if_neg (by simp [hXlen]; omega), if_neg (by simp), if_neg (by simp)]

/-- A status line whose digit run is terminated by a bare `LF` (no `CR`)
is rejected, no matter what follows: the status scan hits the `LF` and no
branch accepts it. -/
theorem statusline_bare_lf {ds rest : List Nat} (hne : ds ≠ []) (hd : ∀ d ∈ ds, digitB d = true) :
    responseParse ([72, 84, 84, 80, 47, 49, 46, 49, 32] ++ ds ++ 10 :: rest)
      = .err .Malformed := by
  have hgroup : ([72, 84, 84, 80, 47, 49, 46, 49, 32] ++ ds ++ 10 :: rest)
      = ([72, 84, 84, 80, 47, 49, 46, 49, 32] ++ ds ++ [10]) ++ rest := by
    simp [List.append_assoc]
  have hucr : ∀ c ∈ ([72, 84, 84, 80, 47, 49, 46, 49, 32] ++ ds ++ [10]), c ≠ 13 := by
    intro c hc
    rcases List.mem_append.mp hc with hc2 | hc2
    · rcases List.mem_append.mp hc2 with hc3 | hc3
      · exact mem_lit_ne_cr (by decide) hc3
      · exact (digitB_ne (hd c hc3)).1
    · exact mem_lit_ne_cr (by decide) hc2
  rcases hf : find_substr [13, 10, 13, 10]
      ([72, 84, 84, 80, 47, 49, 46, 49, 32] ++ ds ++ 10 :: rest) 0 with _ | m
  · exact responseParse_none hf
  · have hf2 : find_substr [13, 10, 13, 10] rest
        (0 + ([72, 84, 84, 80, 47, 49, 46, 49, 32] ++ ds ++ [10]).length) = some m := by
      rw [← find_substr_crfree hucr rest 0, ← hgroup]
      exact hf
    obtain ⟨hmge, hmlen⟩ := find_substr_bound rest _ m hf2
    have hulen : ([72, 84, 84, 80, 47, 49, 46, 49, 32] ++ ds ++ [10]).length
        = ds.length + 10 := by
      simp
    rw [hulen] at hmge hmlen
    have hdlen : 1 ≤ ds.length := List.length_pos.mpr hne
    have htk := take_len_plus ([72, 84, 84, 80, 47, 49, 46, 49, 32] ++ ds ++ [10])
        rest (m + 2 - (ds.length + 10))
    rw [hulen, show ds.length + 10 + (m + 2 - (ds.length + 10)) = m + 2 from by omega] at htk
    rw [responseParse_some hf, hgroup, htk]
    rw [if_neg (by
      simp [List.length_take]
      omega)]
    rw [show ([72, 84, 84, 80, 47, 49, 46, 49, 32] ++ ds ++ [10])
          ++ rest.take (m + 2 - (ds.length + 10))
        = 72 :: 84 :: 84 :: 80 :: 47 :: 49 :: 46 :: 49 :: 32 ::
            (ds ++ 10 :: rest.take (m + 2 - (ds.length + 10)))
      from by simp [List.append_assoc]]
    rw [resp_parse_http_version_ok]
    simp only [pbind]
    rw [parse_status, parse_status_go_digits hd [] (10 :: rest.take (m + 2 - (ds.length + 10))),
      List.nil_append]
    rw [show parse_status_go ds (10 :: rest.take (m + 2 - (ds.length + 10))) = .err .Malformed
      from by
        rw [parse_status_go.eq_def]
        simp [digitB, SPACE, CR]]

/-- A request whose header/blank-line region uses only bare `LF` line
endings (no `CR` at all after the request line) is rejected: no
`"\r\n\r\n"` terminator exists. -/
theorem req_bare_lf_tail {tail : List Nat} (ht : ∀ c ∈ tail, c ≠ 13) :
    requestParse ([71, 69, 84, 32, 47, 32, 72, 84, 84, 80, 47, 49, 46, 49] ++ 13 :: 10 :: tail)
      = .err .Malformed := by
  apply requestParse_none
  rw [find_substr_crfree (fun c hc => mem_lit_ne_cr (by decide) hc) (13 :: 10 :: tail) 0,
    find_substr_crlf_crfree ht]

/-- A response whose header/blank-line region uses only bare `LF` line
endings after the status line is rejected: no `"\r\n\r\n"` terminator
exists. -/
theorem resp_bare_lf_tail {tail : List Nat} (ht : ∀ c ∈ tail, c ≠ 13) :
    responseParse ([72, 84, 84, 80, 47, 49, 46, 49, 32, 50, 48, 48] ++ 13 :: 10 :: tail)
      = .err .Malformed := by
  apply responseParse_none
  rw [find_substr_crfree (fun c hc => mem_lit_ne_cr (by decide) hc) (13 :: 10 :: tail) 0,
    find_substr_crlf_crfree ht]

/-- C3: a bare `LF` standing where the grammar requires `CRLF` is never
accepted: (1) a request line `"GET " ++ path ++ " HTTP/1.1\n"` is
`Malformed` whatever follows the `LF`; (2) a status line
`"HTTP/1.1 " ++ digits ++ "\n"` is `Malformed` whatever follows; (3) a
request whose bytes after the request line contain no `CR` (so every
header line and the blank line would have to end in bare `LF`) is
`Malformed`; (4) likewise for a response after its status line. -/
theorem claim_C3 :
    (∀ (p rest : List Nat), p ≠ [] → (∀ c ∈ p, urlSafeB c = true) →
      requestParse ([71, 69, 84, 32] ++ p ++ 32 :: ([72, 84, 84, 80, 47, 49, 46, 49] ++ 10 :: rest))
        = .err .Malformed)
    ∧ (∀ (ds rest : List Nat), ds ≠ [] → (∀ d ∈ ds, digitB d = true) →
      responseParse ([72, 84, 84, 80, 47, 49, 46, 49, 32] ++ ds ++ 10 :: rest)
        = .err .Malformed)
    ∧ (∀ tail : List Nat, (∀ c ∈ tail, c ≠ 13) →
      requestParse ([71, 69, 84, 32, 47, 32, 72, 84, 84, 80, 47, 49, 46, 49] ++ 13 :: 10 :: tail)
        = .err .Malformed)
    ∧ (∀ tail : List Nat, (∀ c ∈ tail, c ≠ 13) →
      responseParse ([72, 84, 84, 80, 47, 49, 46, 49, 32, 50, 48, 48] ++ 13 :: 10 :: tail)
        = .err .Malformed) :=
  ⟨fun _ _ hne hp => reqline_bare_lf hne hp,
   fun _ _ hne hd => statusline_bare_lf hne hd,
   fun _ ht => req_bare_lf_tail ht,
   fun _ ht => resp_bare_lf_tail ht⟩

/-- Witness for C3 at concrete inputs: `"GET / HTTP/1.1\n"`,
`"HTTP/1.1 200\n"`, `"GET / HTTP/1.1\r\nA: b\n\n"` and
`"HTTP/1.1 200\r\nA: b\n\n"` are all `Malformed`. -/
theorem claim_C3_witness :
    requestParse [71, 69, 84, 32, 47, 32, 72, 84, 84, 80, 47, 49, 46, 49, 10] = .err .Malformed
    ∧ responseParse [72, 84, 84, 80, 47, 49, 46, 49, 32, 50, 48, 48, 10] = .err .Malformed
    ∧ requestParse ([71, 69, 84, 32, 47, 32, 72, 84, 84, 80, 47, 49, 46, 49]
        ++ 13 :: 10 :: [65, 58, 32, 98, 10, 10]) = .err .Malformed
    ∧ responseParse ([72, 84, 84, 80, 47, 49, 46, 49, 32, 50, 48, 48]
        ++ 13 :: 10 :: [65, 58, 32, 98, 10, 10]) = .err .Malformed := by
  refine ⟨?_, ?_, ?_, ?_⟩
  · have h := claim_C3.1 [47] [] (by decide) (by decide)
    simpa using h
  · have h := claim_C3.2.1 [50, 48, 48] [] (by decide) (by decide)
    simpa using h
  · exact claim_C3.2.2.1 [65, 58, 32, 98, 10, 10] (by decide)
  · exact claim_C3.2.2.2 [65, 58, 32, 98, 10, 10] (by decide)

/-- `HEADER_NAME_SAFE` membership excludes `CR`. -/
theorem hdrNameSafeB_ne_cr {c : Nat} (h : hdrNameSafeB c = true) : c ≠ 13 := by
  intro hc
  subst hc
  exact absurd h (by decide)

/-- The src/lib.rs `parse_header_name` on `name ++ ": " ++ rest` for a
table-safe name: returns the name and `name.length + 2` consumed bytes. -/
theorem lib_parse_header_name_ok {n : List Nat} (hn : ∀ c ∈ n, hdrNameSafeB c = true)
    (w : List Nat) : lib_parse_header_name (n ++ 58 :: 32 :: w) = .ok (n, n.length + 2) := by
  rw [lib_parse_header_name, scanWhile_stop hn (by decide) (32 :: w)]
  simp [COLON, SPACE]

/-- The src/lib.rs `parse_header_value` on `val ++ "\r\n" ++ rest` for a
`CR`-free value: returns the value and `val.length + 2` consumed bytes. -/
theorem lib_parse_header_value_ok {v : List Nat} (hv : 13 ∉ v) (w : List Nat) :
    lib_parse_header_value (v ++ 13 :: 10 :: w) = .ok (v, v.length + 2) := by
  have hall : ∀ c ∈ v, (c != CR) = true := by
    intro c hc
    simp [CR]
    intro he
    exact hv (he ▸ hc)
  rw [lib_parse_header_value, scanWhile_stop hall (by simp [CR]) (10 :: w)]
  simp [LF]

/-- Overwriting slot `i` then taking `i + 1` slots is taking `i` slots and
appending the written value. -/
theorem take_succ_set (buf : List Header) :
    ∀ (i : Nat) (h : Header), i < buf.length →
    (buf.set i h).take (i + 1) = buf.take i ++ [h] := by
  induction buf with
  | nil =>
    intro i h hi
    simp at hi
  | cons b bt ih =>
    intro i h hi
    cases i with
    | zero => simp
    | succ j =>
      simp only [List.set_cons_succ, List.take_succ_cons]
      rw [ih j h (by simp at hi; omega)]
      simp

/-- Writing `hs` into consecutive slots of an exactly-large-enough buffer
fills it with the untouched prefix followed by `hs`. -/
theorem writeAll_take :
    ∀ (hs : List Header) (buf : List Header) (i : Nat), buf.length = i + hs.length →
    writeAll buf i hs = buf.take i ++ hs := by
  intro hs
  induction hs with
  | nil =>
    intro buf i hlen
    simp only [List.length_nil, Nat.add_zero] at hlen
    rw [writeAll, show i = buf.length from hlen.symm, List.take_length]
    simp
  | cons h t ih =>
    intro buf i hlen
    simp only [List.length_cons] at hlen
    rw [writeAll, ih (buf.set i h) (i + 1) (by simp; omega),
      take_succ_set buf i h (by omega)]
    simp

/-- The specification of the src/lib.rs header-block loop on a serialized
block of valid headers: with enough remaining capacity it writes all
headers and consumes the whole block; with insufficient capacity it fails
with `TooManyHeaders` (the capacity check firing before the write). -/
theorem lib_parse_headers_go_spec :
    ∀ (hs : List Header) (fuel offset iteration : Nat) (buf : List Header) (slice : List Nat),
    (∀ h ∈ hs, libHdrOk h) →
    slice.drop offset = blockBytes hs →
    slice.length + 1 ≤ fuel + offset →
    ((iteration + hs.length ≤ buf.length →
      lib_parse_headers_go fuel slice offset iteration buf
        = .ok (writeAll buf iteration hs, offset + (hdrLines hs).length + 2))
    ∧ (hs ≠ [] → buf.length < iteration + hs.length →
      lib_parse_headers_go fuel slice offset iteration buf = .err .TooManyHeaders)) := by
  intro hs
  induction hs with
  | nil =>
    intro fuel offset iteration buf slice _ hdrop hfuel
    have hlen : slice.length = offset + 2 := by
      have h2 := congrArg List.length hdrop
      simp [blockBytes, hdrLines, List.length_drop] at h2
      omega
    constructor
    · intro _
      cases fuel with
      | zero => omega
      | succ f =>
        rw [lib_parse_headers_go, if_neg (by omega),
          if_pos (by rw [hdrop]; simp [blockBytes, hdrLines])]
        simp [writeAll, hdrLines]
    · intro habs _
      exact absurd rfl habs
  | cons h t ih =>
    intro fuel offset iteration buf slice hok hdrop hfuel
    have hh : libHdrOk h := hok h (by simp)
    have htok : ∀ x ∈ t, libHdrOk x := fun x hx => hok x (by simp [hx])
    have hshape : slice.drop offset = h.name ++ 58 :: 32 :: (h.val ++ 13 :: 10 :: blockBytes t) := by
      rw [hdrop]
      simp [blockBytes, hdrLines, headerLineBytes, List.append_assoc]
    have hblock_len : (blockBytes (h :: t)).length
        = h.name.length + h.val.length + 4 + (blockBytes t).length := by
      simp [blockBytes, hdrLines, headerLineBytes]
      omega
    have hdroplen : slice.length - offset = (blockBytes (h :: t)).length := by
      have h2 := congrArg List.length hdrop
      simpa [List.length_drop] using h2
    have hoff_le : offset + 6 ≤ slice.length := by
      have : 6 ≤ (blockBytes (h :: t)).length := by
        rw [hblock_len]
        simp [blockBytes, hdrLines]
        omega
      omega
    have hdrop2 : slice.drop (offset + (h.name.length + 2))
        = h.val ++ 13 :: 10 :: blockBytes t := by
      rw [show slice.drop (offset + (h.name.length + 2))
          = (slice.drop offset).drop (h.name.length + 2) from
          (List.drop_drop (h.name.length + 2) offset slice).symm,
        hshape]
      exact drop_app2 h.name 58 32 (h.val ++ 13 :: 10 :: blockBytes t)
    have hdrop3 : slice.drop (offset + (h.name.length + 2) + (h.val.length + 2))
        = blockBytes t := by
      rw [show slice.drop (offset + (h.name.length + 2) + (h.val.length + 2))
          = (slice.drop (offset + (h.name.length + 2))).drop (h.val.length + 2) from
          (List.drop_drop (h.val.length + 2) (offset + (h.name.length + 2)) slice).symm,
        hdrop2]
      exact drop_app2 h.val 13 10 (blockBytes t)
    cases fuel with
    | zero => omega
    | succ f =>
      have htake2 : ¬ (slice.drop offset).take 2 = [13, 10] := by
        rw [hshape]
        cases hn : h.name with
        | nil => simp
        | cons a nm =>
          intro hcontra
          simp [List.take_succ_cons] at hcontra
          exact hdrNameSafeB_ne_cr (hh.1 a (by rw [hn]; simp)) hcontra.1
      rw [lib_parse_headers_go, if_neg (by omega), if_neg htake2]
      constructor
      · intro hcap
        simp only [List.length_cons] at hcap
        rw [if_neg (by omega), hshape, lib_parse_header_name_ok hh.1]
        simp only [pbind]
        rw [hdrop2, lib_parse_header_value_ok hh.2]
        simp only [pbind]
        have hnext := (ih f (offset + (h.name.length + 2) + (h.val.length + 2)) (iteration + 1)
            (buf.set iteration ⟨h.name, h.val⟩) slice htok hdrop3 (by omega)).1
            (by simp [List.length_set]; omega)
        rw [hnext]
        have heta : (⟨h.name, h.val⟩ : Header) = h := rfl
        rw [heta,
          show writeAll (buf.set iteration h) (iteration + 1) t
            = writeAll buf iteration (h :: t) from rfl,
          show offset + (h.name.length + 2) + (h.val.length + 2) + (hdrLines t).length + 2
            = offset + (hdrLines (h :: t)).length + 2 from by
            simp [hdrLines, headerLineBytes]
            omega]
      · intro _ hover
        simp only [List.length_cons] at hover
        by_cases hcap2 : buf.length ≤ iteration
        · rw [if_pos hcap2]
        · rw [if_neg hcap2, hshape, lib_parse_header_name_ok hh.1]
          simp only [pbind]
          rw [hdrop2, lib_parse_header_value_ok hh.2]
          simp only [pbind]
          have ht_ne : t ≠ [] := by
            intro he
            subst he
            simp at hover
            omega
          exact (ih f (offset + (h.name.length + 2) + (h.val.length + 2)) (iteration + 1)
            (buf.set iteration ⟨h.name, h.val⟩) slice htok hdrop3 (by omega)).2 ht_ne
            (by simp [List.length_set]; omega)

/-- C4: for every header block terminated by an empty line, if the number
of header lines exceeds the capacity of the caller-supplied buffer,
src/lib.rs `parse_headers` fails with the distinct `TooManyHeaders` error
(not `Malformed`), the capacity check firing before any write past the
buffer; a block with exactly capacity-many headers succeeds with no panic
and no truncation: the buffer holds exactly the block's headers and the
whole block is consumed. -/
theorem claim_C4 (hs : List Header) (buf : List Header) (hok : ∀ h ∈ hs, libHdrOk h) :
    (buf.length < hs.length →
      lib_parse_headers (blockBytes hs) buf = .err .TooManyHeaders)
    ∧ (buf.length = hs.length →
      lib_parse_headers (blockBytes hs) buf = .ok (hs, (blockBytes hs).length)) := by
  have hspec := lib_parse_headers_go_spec hs ((blockBytes hs).length + 1) 0 0 buf
    (blockBytes hs) hok (by simp) (by omega)
  constructor
  · intro hlt
    have hne : hs ≠ [] := by
      intro he
      subst he
      simp at hlt
    rw [lib_parse_headers]
    exact hspec.2 hne (by omega)
  · intro heq
    rw [lib_parse_headers, hspec.1 (by omega), writeAll_take hs buf 0 (by omega)]
    simp [blockBytes]

/-- Witness for C4 at the block `"Host: foo\r\nA: b\r\n\r\n"`: a 1-slot
buffer overflows with `TooManyHeaders`; a 2-slot buffer succeeds, filling
both slots and consuming all 19 bytes. -/
theorem claim_C4_witness :
    lib_parse_headers (blockBytes [⟨[72, 111, 115, 116], [102, 111, 111]⟩, ⟨[65], [98]⟩])
        [⟨[], []⟩] = .err .TooManyHeaders
    ∧ lib_parse_headers (blockBytes [⟨[72, 111, 115, 116], [102, 111, 111]⟩, ⟨[65], [98]⟩])
        [⟨[], []⟩, ⟨[], []⟩]
      = .ok ([⟨[72, 111, 115, 116], [102, 111, 111]⟩, ⟨[65], [98]⟩],
          (blockBytes [⟨[72, 111, 115, 116], [102, 111, 111]⟩, ⟨[65], [98]⟩]).length) :=
  ⟨(claim_C4 [⟨[72, 111, 115, 116], [102, 111, 111]⟩, ⟨[65], [98]⟩] [⟨[], []⟩]
      (by
        intro h hm
        simp at hm
        rcases hm with hm | hm <;> subst hm <;> exact ⟨by decide, by decide⟩)).1 (by decide),
   (claim_C4 [⟨[72, 111, 115, 116], [102, 111, 111]⟩, ⟨[65], [98]⟩] [⟨[], []⟩, ⟨[], []⟩]
      (by
        intro h hm
        simp at hm
        rcases hm with hm | hm <;> subst hm <;> exact ⟨by decide, by decide⟩)).2 (by decide)⟩

/-- A status line whose digit run is longer than three digits and is
terminated by a space is rejected, whatever follows the space: the scan
closes the run at the space and the length check fires. -/
theorem status_long_digits_space {ds rest : List Nat} (hlong : 3 < ds.length)
    (hd : ∀ d ∈ ds, digitB d = true) :
    responseParse ([72, 84, 84, 80, 47, 49, 46, 49, 32] ++ ds ++ 32 :: rest)
      = .err .Malformed := by
  have hgroup : ([72, 84, 84, 80, 47, 49, 46, 49, 32] ++ ds ++ 32 :: rest)
      = ([72, 84, 84, 80, 47, 49, 46, 49, 32] ++ ds ++ [32]) ++ rest := by
    simp [List.append_assoc]
  have hucr : ∀ c ∈ ([72, 84, 84, 80, 47, 49, 46, 49, 32] ++ ds ++ [32]), c ≠ 13 := by
    intro c hc
    rcases List.mem_append.mp hc with hc2 | hc2
    · rcases List.mem_append.mp hc2 with hc3 | hc3
      · exact mem_lit_ne_cr (by decide) hc3
      · exact (digitB_ne (hd c hc3)).1
    · exact mem_lit_ne_cr (by decide) hc2
  rcases hf : find_substr [13, 10, 13, 10]
      ([72, 84, 84, 80, 47, 49, 46, 49, 32] ++ ds ++ 32 :: rest) 0 with _ | m
  · exact responseParse_none hf
  · have hf2 : find_substr [13, 10, 13, 10] rest
        (0 + ([72, 84, 84, 80, 47, 49, 46, 49, 32] ++ ds ++ [32]).length) = some m := by
      rw [← find_substr_crfree hucr rest 0, ← hgroup]
      exact hf
    obtain ⟨hmge, hmlen⟩ := find_substr_bound rest _ m hf2
    have hulen : ([72, 84, 84, 80, 47, 49, 46, 49, 32] ++ ds ++ [32]).length
        = ds.length + 10 := by
      simp
    rw [hulen] at hmge hmlen
    have htk := take_len_plus ([72, 84, 84, 80, 47, 49, 46, 49, 32] ++ ds ++ [32])
        rest (m + 2 - (ds.length + 10))
    rw [hulen, show ds.length + 10 + (m + 2 - (ds.length + 10)) = m + 2 from by omega] at htk
    rw [responseParse_some hf, hgroup, htk]
    rw [if_neg (by
      simp [List.length_take]
      omega)]
    rw [show ([72, 84, 84, 80, 47, 49, 46, 49, 32] ++ ds ++ [32])
          ++ rest.take (m + 2 - (ds.length + 10))
        = 72 :: 84 :: 84 :: 80 :: 47 :: 49 :: 46 :: 49 :: 32 ::
            (ds ++ 32 :: rest.take (m + 2 - (ds.length + 10)))
      from by simp [List.append_assoc]]
    rw [resp_parse_http_version_ok]
    simp only [pbind]
    rw [parse_status, parse_status_go_digits hd [] (32 :: rest.take (m + 2 - (ds.length + 10))),
      List.nil_append]
    rw [show parse_status_go ds (32 :: rest.take (m + 2 - (ds.length + 10))) = .err .Malformed
      from by
        rw [parse_status_go.eq_def]
        simp [digitB, SPACE, hlong]]

/-- C5 (amended): a run of more than three ASCII digits before a space
terminator makes response parsing fail, whatever follows the space; but
in the directly-`CR`-terminated form there is no length check: the
four-digit status line `"HTTP/1.1 1234\r\n\r\n"` is accepted with status
1234. -/
theorem claim_C5_amended :
    (∀ (ds rest : List Nat), 3 < ds.length → (∀ d ∈ ds, digitB d = true) →
      responseParse ([72, 84, 84, 80, 47, 49, 46, 49, 32] ++ ds ++ 32 :: rest)
        = .err .Malformed)
    ∧ responseParse [72, 84, 84, 80, 47, 49, 46, 49, 32, 49, 50, 51, 52, 13, 10, 13, 10]
        = .ok ⟨1234, [], [], []⟩ :=
  ⟨fun _ _ hlong hd => status_long_digits_space hlong hd, by decide⟩

/-- Counterexample for C5 as stated: the status line
`"HTTP/1.1 1234\r\n\r\n"` has a four-digit run before its directly-`CR`
terminator, yet response parsing succeeds with status 1234 — the claim
says it fails in this form too. -/
theorem claim_C5_cex :
    responseParse [72, 84, 84, 80, 47, 49, 46, 49, 32, 49, 50, 51, 52, 13, 10, 13, 10]
      = .ok ⟨1234, [], [], []⟩ := by decide

/-- Witness for C5 (amended) at the space-terminated status line
`"HTTP/1.1 1234 OK..."`: rejected as `Malformed`. -/
theorem claim_C5_witness :
    responseParse ([72, 84, 84, 80, 47, 49, 46, 49, 32] ++ [49, 50, 51, 52]
      ++ 32 :: [79, 75, 13, 10, 13, 10]) = .err .Malformed :=
  claim_C5_amended.1 [49, 50, 51, 52] [79, 75, 13, 10, 13, 10] (by decide) (by decide)

/-- C9: `Url::parse` on a zero-capacity query buffer, applied to any slice
beginning with `/`, always succeeds with `query_params = None` —
regardless of whether a `?` is present. -/
theorem claim_C9 (t : List Nat) : ∃ p, urlParse (47 :: t) [] = .ok ⟨p, none⟩ := by
  rw [urlParse]
  simp only [uri_parse_path]
  rw [if_neg (by simp)]
  rcases hscan : scanWhile (fun b => b != 63) (47 :: t) with ⟨pre, rest⟩
  rcases rest with _ | ⟨c, r⟩
  · exact ⟨47 :: t, by simp [ubind]⟩
  · exact ⟨pre, by simp [ubind]⟩

/-- C10: the claim that response parsing never panics is false — the
status-digit conversion `str::parse::<u16>(..).unwrap()` fails on the
input `"HTTP/1.1 99999\r\n\r\n"`, whose five-digit run denotes 99999 >
65535, so the directly-`CR`-terminated branch panics. -/
theorem claim_C10 :
    responseParse [72, 84, 84, 80, 47, 49, 46, 49, 32, 57, 57, 57, 57, 57, 13, 10, 13, 10]
      = .crash := by decide

/-- One-step unfolding of the query-parameter loop at positive fuel. -/
theorem parse_query_params_go_succ (f : Nat) (slice : List Nat) (offset iteration : Nat)
    (buf : List QueryParam) :
    parse_query_params_go (f + 1) slice offset iteration buf =
      (if slice.length ≤ offset then .ok buf
      else if buf.length ≤ iteration then .err .TooManyQueryParams
      else
        ubind (parse_query_param_name (slice.drop offset)) (fun nb =>
        ubind (parse_query_param_value (slice.drop (offset + nb.2))) (fun vb =>
        parse_query_params_go f slice (offset + nb.2 + vb.2) (iteration + 1)
          (buf.set iteration ⟨nb.1, vb.1⟩)))) := rfl

/-- A query parameter whose `=` is the last byte of the slice parses with
an empty value: `Url::parse` of `"/?name="` on a nonempty query buffer
succeeds and writes `(name, "")` into slot 0. -/
theorem url_empty_val_eoi {name : List Nat} (hne : name ≠ []) (h61 : (61 : Nat) ∉ name)
    (q : QueryParam) (qs : List QueryParam) :
    urlParse (47 :: 63 :: (name ++ [61])) (q :: qs)
      = .ok ⟨[47], some ((q :: qs).set 0 ⟨name, []⟩)⟩ := by
  have hnlen : 1 ≤ name.length := List.length_pos.mpr hne
  have hscan : scanWhile (fun b => b != 63) (47 :: 63 :: (name ++ [61]))
      = ([47], 63 :: (name ++ [61])) := by
    have h := scanWhile_stop (p := fun b => b != 63) (u := [47])
      (by decide) (c := 63) (by decide) (name ++ [61])
    simpa using h
  have hdropA : (47 :: 63 :: (name ++ [61])).drop ([47].length + 1) = name ++ [61] := by
    simp
  have hpqn : parse_query_param_name ((name ++ [61]).drop 0) = .ok (name, name.length + 1) := by
    rw [List.drop_zero, parse_query_param_name,
      scanWhile_stop (u := name)
        (by
          intro c hc
          simp
          exact Or.inr (fun he => h61 (he ▸ hc)))
        (c := 61) (by decide) []]
    simp [hne]
  have hdropB : (name ++ [61]).drop (0 + (name.length + 1)) = [] := by
    have h := drop_len_plus name [61] 1
    simpa using h
  have hpqv : parse_query_param_value ([] : List Nat) = .ok ([], 0) := by
    rw [parse_query_param_value]
    simp [scanWhile]
  rw [urlParse]
  simp only [uri_parse_path]
  rw [if_neg (by simp), hscan]
  simp only [ubind]
  rw [if_neg (by simp)]
  have hfuel : (name ++ [61]).length + 1 = (name.length + 1) + 1 := by simp
  rw [hdropA, parse_query_params]
  rw [hfuel]
  rw [parse_query_params_go_succ]
  rw [if_neg (by simp), if_neg (by simp)]
  rw [hpqn]
  simp only [ubind]
  rw [hdropB, hpqv]
  simp only [ubind]
  rw [parse_query_params_go_succ]
  rw [if_pos (by simp)]

/-- A query parameter whose `=` is immediately followed by `&` fails with
`UrlError::Query`: the value scan finds an empty value before `&` and
rejects it, whatever follows. -/
theorem url_empty_val_amp (rest : List Nat) (q : QueryParam) (qs : List QueryParam) :
    urlParse (47 :: 63 :: 97 :: 61 :: 38 :: rest) (q :: qs) = .err .Query := by
  have hscan : scanWhile (fun b => b != 63) (47 :: 63 :: 97 :: 61 :: 38 :: rest)
      = ([47], 63 :: 97 :: 61 :: 38 :: rest) := by
    have h := scanWhile_stop (p := fun b => b != 63) (u := [47])
      (by decide) (c := 63) (by decide) (97 :: 61 :: 38 :: rest)
    simpa using h
  rw [urlParse]
  simp only [uri_parse_path]
  rw [if_neg (by simp), hscan]
  simp only [ubind]
  rw [if_neg (by simp)]
  rw [show (47 :: 63 :: 97 :: 61 :: 38 :: rest).drop ([47].length + 1)
      = 97 :: 61 :: 38 :: rest from by simp]
  rw [parse_query_params, parse_query_params_go_succ]
  rw [if_neg (by simp), if_neg (by simp)]
  have hpqn : parse_query_param_name ((97 :: 61 :: 38 :: rest).drop 0)
      = .ok ([97], 2) := by
    rw [List.drop_zero, parse_query_param_name,
      show (97 : Nat) :: 61 :: 38 :: rest = [97] ++ 61 :: (38 :: rest) from rfl,
      scanWhile_stop (u := [97]) (by decide) (c := 61) (by decide) (38 :: rest)]
    simp
  rw [hpqn]
  simp only [ubind]
  rw [show (97 :: 61 :: 38 :: rest).drop (0 + 2) = 38 :: rest from by simp]
  rw [show parse_query_param_value (38 :: rest) = .err .Query from by
    rw [parse_query_param_value,
      show (38 : Nat) :: rest = [] ++ 38 :: rest from rfl,
      scanWhile_stop (u := []) (by simp) (c := 38) (by decide) rest]
    simp]

/-- C8 (amended): with a nonempty query buffer, a query-parameter value
may be empty only at end-of-input: a parameter whose `=` ends the input
parses successfully with an empty value slice, but a parameter whose `=`
is immediately followed by `&` makes `Url::parse` fail with
`UrlError::Query` (the value scan rejects an empty value before `&`). -/
theorem claim_C8_amended :
    (∀ (name : List Nat) (q : QueryParam) (qs : List QueryParam),
      name ≠ [] → (61 : Nat) ∉ name →
      urlParse (47 :: 63 :: (name ++ [61])) (q :: qs)
        = .ok ⟨[47], some ((q :: qs).set 0 ⟨name, []⟩)⟩)
    ∧ (∀ (rest : List Nat) (q : QueryParam) (qs : List QueryParam),
      urlParse (47 :: 63 :: 97 :: 61 :: 38 :: rest) (q :: qs) = .err .Query) :=
  ⟨fun _ q qs hne h61 => url_empty_val_eoi hne h61 q qs,
   fun rest q qs => url_empty_val_amp rest q qs⟩

/-- Counterexample for C8 as stated: in `"/?a=&b=c"` the first
parameter's `=` is immediately followed by `&`, and `Url::parse` with a
nonempty query buffer fails with `UrlError::Query` instead of producing
an empty value. -/
theorem claim_C8_cex :
    urlParse [47, 63, 97, 61, 38, 98, 61, 99]
      (List.replicate 10 ⟨[], []⟩) = .err .Query := by decide

/-- Witness for C8 (amended) at `"/?a="` (empty value at end-of-input
succeeds) and `"/?a=&b=c"` (empty value before `&` fails). -/
theorem claim_C8_witness :
    urlParse (47 :: 63 :: ([97] ++ [61])) [⟨[], []⟩, ⟨[], []⟩]
      = .ok ⟨[47], some ([⟨[], []⟩, ⟨[], []⟩].set 0 ⟨[97], []⟩)⟩
    ∧ urlParse (47 :: 63 :: 97 :: 61 :: 38 :: [98, 61, 99]) [⟨[], []⟩]
      = .err .Query :=
  ⟨claim_C8_amended.1 [97] ⟨[], []⟩ [⟨[], []⟩] (by decide) (by decide),
   claim_C8_amended.2 [98, 61, 99] ⟨[], []⟩ []⟩

/-- C6: for every input accepted by the request parser, serializing the
parsed result with `as_bytes` and re-parsing the produced bytes succeeds
and reproduces the same method, path, header sequence (names and values,
in order), and body. -/
theorem claim_C6 (bs : List Nat) (r : Request)
    (h : requestParse bs = .ok r) :
    requestParse (as_bytes r) = .ok r := by
  obtain ⟨hm, ⟨hne, hp⟩, hhs⟩ := requestParse_sound h
  have hab : as_bytes r = reqWire [71, 69, 84, 32] r.path r.headers r.body := by
    rw [as_bytes_eq_reqWire, hm]
    simp [methodBytes]
  rw [hab, requestParse_reqWire (Or.inl rfl) hne hp hhs]
  rw [show (⟨.Get, r.path, r.headers, r.body⟩ : Request) = r from by
    cases r
    simp_all]

/-- Witness for C6 at the request `"GET / HTTP/1.1\r\nHi: x\r\n\r\nb"`:
re-parsing its serialization reproduces the parsed structure. -/
theorem claim_C6_witness :
    requestParse (as_bytes ⟨.Get, [47], [⟨[72, 105], [120]⟩], [98]⟩)
      = .ok ⟨.Get, [47], [⟨[72, 105], [120]⟩], [98]⟩ :=
  claim_C6
    [71, 69, 84, 32, 47, 32, 72, 84, 84, 80, 47, 49, 46, 49, 13, 10,
     72, 105, 58, 32, 120, 13, 10, 13, 10, 98]
    ⟨.Get, [47], [⟨[72, 105], [120]⟩], [98]⟩ (by decide)

/-- C2 (amended): request parsing recognizes the method by exact literal
match against `"GET "` and `"POST "` only — there is no `"PUT "` literal
and no `Put` method in the source; every otherwise-valid request beginning
with `"GET "` or `"POST "` parses successfully, and in both cases the
resulting method value is `Get` (the source's `POST` branch returns
`Method::Get`); every input whose prefix is neither literal fails with
`Malformed`. -/
theorem claim_C2_amended :
    (∀ (p : List Nat) (hs : List Header) (body : List Nat),
      p ≠ [] → (∀ c ∈ p, urlSafeB c = true) → (∀ h ∈ hs, hdrOkS h) →
      requestParse (reqWire [71, 69, 84, 32] p hs body) = .ok ⟨.Get, p, hs, body⟩)
    ∧ (∀ (p : List Nat) (hs : List Header) (body : List Nat),
      p ≠ [] → (∀ c ∈ p, urlSafeB c = true) → (∀ h ∈ hs, hdrOkS h) →
      requestParse (reqWire [80, 79, 83, 84, 32] p hs body) = .ok ⟨.Get, p, hs, body⟩)
    ∧ (∀ bs : List Nat, bs.take 4 ≠ [71, 69, 84, 32] → bs.take 5 ≠ [80, 79, 83, 84, 32] →
      requestParse bs = .err .Malformed) := by
  refine ⟨?_, ?_, ?_⟩
  · intro p hs body hne hp hhs
    exact requestParse_reqWire (Or.inl rfl) hne hp hhs
  · intro p hs body hne hp hhs
    exact requestParse_reqWire (Or.inr rfl) hne hp hhs
  · intro bs h4 h5
    exact requestParse_bad_prefix h4 h5

/-- Counterexample for C2 as stated: the otherwise-valid request
`"PUT / HTTP/1.1\r\n\r\n"` is rejected (the claim says it succeeds with
method `Put`), and `"POST / HTTP/1.1\r\n\r\n"` parses with method `Get`,
not `Post` (the claim says the corresponding method value results). -/
theorem claim_C2_cex :
    requestParse [80, 85, 84, 32, 47, 32, 72, 84, 84, 80, 47, 49, 46, 49, 13, 10, 13, 10]
        = .err .Malformed
    ∧ requestParse [80, 79, 83, 84, 32, 47, 32, 72, 84, 84, 80, 47, 49, 46, 49, 13, 10, 13, 10]
        = .ok ⟨.Get, [47], [], []⟩ :=
  ⟨by decide, by decide⟩

/-- Witness for C2 (amended) at concrete requests: `"GET /"` and
`"POST /"` wire images parse to method `Get`, and an input starting
`"XX"` is `Malformed`. -/
theorem claim_C2_witness :
    requestParse (reqWire [71, 69, 84, 32] [47] [] [104, 105])
        = .ok ⟨.Get, [47], [], [104, 105]⟩
    ∧ requestParse (reqWire [80, 79, 83, 84, 32] [47] [] [])
        = .ok ⟨.Get, [47], [], []⟩
    ∧ requestParse [88, 88] = .err .Malformed :=
  ⟨claim_C2_amended.1 [47] [] [104, 105] (by decide) (by decide) (by simp),
   claim_C2_amended.2.1 [47] [] [] (by decide) (by decide) (by simp),
   claim_C2_amended.2.2 [88, 88] (by decide) (by decide)⟩

/-- The src/lib.rs header-name scan rejects a non-table byte other than
the colon at the name position. -/
theorem lib_parse_header_name_reject {n : List Nat} (hn : ∀ c ∈ n, hdrNameSafeB c = true)
    {c : Nat} (hc : hdrNameSafeB c = false) (h58 : c ≠ 58) (rest : List Nat) :
    lib_parse_header_name (n ++ c :: rest) = .err .Malformed := by
  rw [lib_parse_header_name, scanWhile_stop hn hc rest]
  simp [COLON, h58]

/-- The request/response struct header-name scan (letters and dash only)
rejects a digit or underscore at the name position. -/
theorem struct_header_name_reject {n : List Nat} (hn : ∀ x ∈ n, structNameSafeB x = true)
    {c : Nat} (hc : digitB c = true ∨ c = 95) (rest : List Nat) :
    parse_header_name (n ++ c :: rest) = .err .Malformed := by
  have hcf : structNameSafeB c = false := by
    rcases hc with h | h
    · simp [digitB] at h
      simp [structNameSafeB]
      omega
    · subst h
      decide
  have h58 : c ≠ 58 := by
    rcases hc with h | h
    · simp [digitB] at h
      omega
    · omega
  rw [parse_header_name, scanWhile_stop hn hcf rest]
  simp [COLON, h58]

/-- C7, corrected.  The `HEADER_NAME_SAFE` table of src/lib.rs holds
exactly the ASCII letters, digits, `-` and `_`, and the table-driven
scanner of src/lib.rs `parse_header_name` accepts every such name up to
`:` and rejects any other byte in the name position with `Malformed`.
The claim fails for the request and response struct parsers it also
cites: their inline scan accepts only letters and `-`, so a name
containing a digit or `_` is rejected there. -/
theorem claim_C7_amended :
    (∀ c, c < 256 → (hdrNameSafeB c = true ↔
      ((48 ≤ c ∧ c ≤ 57) ∨ (65 ≤ c ∧ c ≤ 90) ∨ (97 ≤ c ∧ c ≤ 122) ∨ c = 45 ∨ c = 95)))
  ∧ (∀ (n : List Nat), (∀ c ∈ n, hdrNameSafeB c = true) → ∀ (w : List Nat),
      lib_parse_header_name (n ++ 58 :: 32 :: w) = .ok (n, n.length + 2))
  ∧ (∀ (n : List Nat) (c : Nat) (rest : List Nat), (∀ x ∈ n, hdrNameSafeB x = true) →
      hdrNameSafeB c = false → c ≠ 58 →
      lib_parse_header_name (n ++ c :: rest) = .err .Malformed)
  ∧ (∀ (n : List Nat) (c : Nat) (rest : List Nat), (∀ x ∈ n, structNameSafeB x = true) →
      (digitB c = true ∨ c = 95) →
      parse_header_name (n ++ c :: rest) = .err .Malformed) :=
  ⟨by decide, fun _ hn w => lib_parse_header_name_ok hn w,
    fun _ _ rest hn hc h58 => lib_parse_header_name_reject hn hc h58 rest,
    fun _ _ rest hn hc => struct_header_name_reject hn hc rest⟩

/-- C7 counterexample: the digit `1` is in `HEADER_NAME_SAFE`, yet the
request parser rejects the request whose only header is `"X1: a"`. -/
theorem claim_C7_cex :
    hdrNameSafeB 49 = true ∧
    requestParse [71, 69, 84, 32, 47, 32, 72, 84, 84, 80, 47, 49, 46, 49, 13, 10,
      88, 49, 58, 32, 97, 13, 10, 13, 10] = .err .Malformed :=
  ⟨by decide, by decide⟩

/-- C7 witness: the lib scanner accepts the name `"X1_"`, and the struct
scanner rejects the digit in `"X1"`. -/
theorem claim_C7_witness :
    lib_parse_header_name ([88, 49, 95] ++ 58 :: 32 :: [97]) = .ok ([88, 49, 95], 5) ∧
    parse_header_name ([88] ++ 49 :: [58, 32, 97]) = .err .Malformed :=
  ⟨claim_C7_amended.2.1 [88, 49, 95] (by decide) [97],
    claim_C7_amended.2.2.2 [88] 49 [58, 32, 97] (by decide) (Or.inl (by decide))⟩

/-- A reason phrase produced by `parse_reason` is a run of letters and
spaces. -/
theorem parse_reason_sound {bs : List Nat} {p r : List Nat}
    (h : parse_reason bs = .ok (p, r)) : ∀ c ∈ p, reasonSafeB c = true := by
  have hsat := scanWhile_sat reasonSafeB bs
  rw [parse_reason] at h
  rcases hscan : scanWhile reasonSafeB bs with ⟨pre, rest⟩
  rw [hscan] at h hsat
  rcases rest with _ | ⟨c, r2⟩
  · cases h
    simp
  · simp only at h hsat
    by_cases hcr : c = CR
    · rw [if_pos hcr] at h
      rcases r2 with _ | ⟨d, r3⟩
      · cases h
      · simp only at h
        by_cases hd : d = LF
        · rw [if_pos hd] at h
          cases h
          exact hsat
        · rw [if_neg hd] at h
          cases h
    · rw [if_neg hcr] at h
      cases h

/-- A reason phrase produced by the status scan is a run of letters and
spaces, whatever the accumulator. -/
theorem parse_status_go_sound :
    ∀ (bs acc : List Nat) (res : (Nat × List Nat) × List Nat),
    parse_status_go acc bs = .ok res → ∀ c ∈ res.1.2, reasonSafeB c = true := by
  intro bs
  induction bs with
  | nil =>
    intro acc res h
    rw [parse_status_go] at h
    cases h
  | cons c r ih =>
    intro acc res h
    by_cases hc : digitB c = true
    · rw [parse_status_go_digit_step hc] at h
      exact ih _ _ h
    · rw [parse_status_go.eq_def] at h
      simp only at h
      rw [if_neg hc] at h
      by_cases hsp : c = SPACE
      · rw [if_pos hsp] at h
        by_cases hlen : 3 < acc.length
        · rw [if_pos hlen] at h
          cases h
        · rw [if_neg hlen] at h
          rcases r with _ | ⟨d, r2⟩
          · cases h
          · simp only at h
            by_cases halpha : (65 ≤ d ∧ d ≤ 90) ∨ (97 ≤ d ∧ d ≤ 122)
            · rw [if_pos halpha] at h
              rcases hr : parse_reason (d :: r2) with ⟨rp, rw2⟩ | e | _ <;>
                rw [hr] at h <;> simp only [pbind] at h
              · rcases hu : u16_unwrap acc with st | e | _ <;>
                  rw [hu] at h <;> simp only [pbind] at h
                · cases h
                  exact parse_reason_sound hr
                · cases h
                · cases h
              · cases h
              · cases h
            · rw [if_neg halpha] at h
              by_cases hdcr : d = CR
              · rw [if_pos hdcr] at h
                rcases r2 with _ | ⟨d2, r3⟩
                · cases h
                · simp only at h
                  by_cases hlf : d2 = LF
                  · rw [if_pos hlf] at h
                    rcases hu : u16_unwrap acc with st | e | _ <;>
                      rw [hu] at h <;> simp only [pbind] at h
                    · cases h
                      simp
                    · cases h
                    · cases h
                  · rw [if_neg hlf] at h
                    cases h
              · rw [if_neg hdcr] at h
                cases h
      · rw [if_neg hsp] at h
        by_cases hcr : c = CR
        · rw [if_pos hcr] at h
          rcases r with _ | ⟨d, r2⟩
          · cases h
          · simp only at h
            by_cases hlf : d = LF
            · rw [if_pos hlf] at h
              rcases hu : u16_unwrap acc with st | e | _ <;>
                rw [hu] at h <;> simp only [pbind] at h
              · cases h
                simp
              · cases h
              · cases h
            · rw [if_neg hlf] at h
              cases h
        · rw [if_neg hcr] at h
          cases h

/-- Inversion: anything `responseParse` accepts has a letters-and-spaces
reason phrase, every header name a run of letters and `-`, and no `CR` in
a header value. -/
theorem responseParse_sound {bs : List Nat} {resp : Response}
    (h : responseParse bs = .ok resp) :
    (∀ c ∈ resp.reason, reasonSafeB c = true) ∧ ∀ hd ∈ resp.headers, hdrOkS hd := by
  rcases hf : find_substr [13, 10, 13, 10] bs 0 with _ | idx
  · rw [responseParse_none hf] at h
    cases h
  · rw [responseParse_some hf] at h
    by_cases h12 : (bs.take (idx + 2)).length < 12
    · rw [if_pos h12] at h
      cases h
    · rw [if_neg h12] at h
      rcases hv : resp_parse_http_version (bs.take (idx + 2)) with ⟨vv, b1⟩ | e | _ <;>
        rw [hv] at h <;> simp only [pbind] at h
      · rcases hst : parse_status b1 with ⟨sv, b2⟩ | e | _ <;>
          rw [hst] at h <;> simp only [pbind] at h
        · rcases hh : resp_parse_headers b2 with ⟨hs2, rr⟩ | e | _ <;>
            rw [hh] at h <;> simp only [pbind] at h
          · cases h
            have hhd : parse_headers b2 = .ok (hs2, rr) := by
              rw [resp_parse_headers] at hh
              by_cases hsp : b2.head? = some SPACE
              · rw [if_pos hsp] at hh
                cases hh
              · rw [if_neg hsp] at hh
                exact hh
            refine ⟨?_, ?_⟩
            · rw [parse_status] at hst
              exact parse_status_go_sound b1 [] (sv, b2) hst
            · rw [parse_headers] at hhd
              exact parse_headers_go_sound _ _ _ _ _ hhd (by simp)
          · cases h
          · cases h
        · cases h
        · cases h
      · cases h
      · cases h

/-- C1, corrected.  The request parser's path and header names, and the
response parser's reason phrase and header names, are scanned against
ASCII-only byte classes, so every such field of a successful parse is
ASCII.  The claim fails for `Url::parse`: its path (and query values) are
never validated against any table, so a successful URL parse can capture
bytes ≥ 128 into the path field. -/
theorem claim_C1_amended :
    (∀ (bs : List Nat) (r : Request), requestParse bs = .ok r →
      allAscii r.path ∧ ∀ hd ∈ r.headers, allAscii hd.name)
  ∧ (∀ (bs : List Nat) (resp : Response), responseParse bs = .ok resp →
      allAscii resp.reason ∧ ∀ hd ∈ resp.headers, allAscii hd.name) := by
  constructor
  · intro bs r h
    obtain ⟨-, ⟨-, hp⟩, hh⟩ := requestParse_sound h
    exact ⟨fun c hc => urlSafeB_ascii (hp c hc),
      fun hd hhd c hc => structNameSafeB_ascii ((hh hd hhd).1 c hc)⟩
  · intro bs resp h
    obtain ⟨hr, hh⟩ := responseParse_sound h
    exact ⟨fun c hc => reasonSafeB_ascii (hr c hc),
      fun hd hhd c hc => structNameSafeB_ascii ((hh hd hhd).1 c hc)⟩

/-- C1 counterexample: `Url::parse` with a zero-capacity query buffer
accepts the path `[47, 255]`, which contains the non-ASCII byte 255. -/
theorem claim_C1_cex :
    urlParse [47, 255] [] = .ok ⟨[47, 255], none⟩ ∧ ¬ allAscii [47, 255] :=
  ⟨by decide, fun h => absurd (h 255 (by simp)) (by omega)⟩

/-- C1 witness: the request `"GET / HTTP/1.1\r\nHi: x\r\n\r\n"`
parses, and its path and header name are ASCII. -/
theorem claim_C1_witness :
    allAscii ([47] : List Nat) ∧
      ∀ hd ∈ [({name := [72, 105], val := [120]} : Header)], allAscii hd.name :=
  claim_C1_amended.1
    [71, 69, 84, 32, 47, 32, 72, 84, 84, 80, 47, 49, 46, 49, 13, 10,
      72, 105, 58, 32, 120, 13, 10, 13, 10]
    ⟨.Get, [47], [⟨[72, 105], [120]⟩], []⟩ (by decide)

end Htpp
